import Mathlib

/-!
# Verification of the panimg DICOM / OCT reconstruction core

Shallow embedding of the panimg image builders:
* `panimg/image_builders/dicom.py` — study grouping, 4D validation, slice
  geometry, pixel rescaling, photometric inversion, metadata validation;
* `panimg/image_builders/oct.py` and
  `panimg/contrib/oct_converter/readers/e2e.py` — the E2E container scan,
  the custom float codec and record emission.

Machine floats are modelled by exact rationals `ℚ`; every arithmetic step
of `read_custom_float` is exact in binary floating point, so the rational
model coincides with the Python value.  NumPy integer buffers are modelled
by `ℤ` together with explicit wraparound on the dtype range.
-/

/- ===================================================================
   E2E custom float codec
   (panimg/contrib/oct_converter/readers/e2e.py, E2E.read_custom_float)
   =================================================================== -/

/-- Bit `i` of a natural number, as a value in `{0, 1}`. -/
def bitAt (n i : ℕ) : ℕ := n / 2 ^ i % 2

/-- `int(s, 2)`: value of a bit list read most-significant digit first. -/
def binVal (bits : List ℕ) : ℕ := bits.foldl (fun a b => 2 * a + b) 0

/-- `bin(b)[2:].zfill(8)[::-1]`: the bits of one byte, least significant
first. -/
def byteBitsRev (b : ℕ) : List ℕ := (List.range 8).map (bitAt b)

/-- `2 ** e` for an integer exponent, as an exact rational (Python returns
the exact dyadic value here: no rounding occurs for `|e| ≤ 63`). -/
def twoPowInt (e : ℤ) : ℚ := if 0 ≤ e then 2 ^ e.toNat else 1 / 2 ^ (-e).toNat

/-- `E2E.read_custom_float(bytes)`: the 16-bit word is the byte pair
`(b0, b1)`; the code concatenates the reversed bit strings of the two
bytes, takes the first 10 characters as the mantissa (read as written,
i.e. bit-reversed), reverses the remaining 6 characters back before
reading them as the exponent, and returns
`(1 + mantissa/1024) * 2 ** (exponent - 63)`. -/
def read_custom_float (b0 b1 : ℕ) : ℚ :=
  let bits := byteBitsRev b0 ++ byteBitsRev b1
  let mantissa := binVal (bits.take 10)
  let exponent := binVal (bits.drop 10).reverse
  (1 + (mantissa : ℚ) / 1024) * twoPowInt ((exponent : ℤ) - 63)

/-- Value of the low `width` bits of `n` read bit-reversed (bit 0 becomes
the most significant digit). -/
def bitrevField (width n : ℕ) : ℕ := binVal ((List.range width).map (bitAt n))

/-- Modelled from the claim wording (refinement side): both the 10-bit
mantissa field and the 6-bit exponent field of the little-endian word `w`
are read bit-reversed. -/
def spec_custom_float (w : ℕ) : ℚ :=
  (1 + (bitrevField 10 (w % 1024) : ℚ) / 1024)
    * twoPowInt ((bitrevField 6 (w / 1024) : ℤ) - 63)

/- ===================================================================
   DICOM 4D group validation
   (panimg/image_builders/dicom.py, _find_valid_dicom_files)
   =================================================================== -/

/-- File paths are abstracted to numeric identifiers. -/
abbrev FileId := ℕ

/-- The header fields `_find_valid_dicom_files` reads from the last header
of a group (the group lists are already sorted by InstanceNumber). -/
structure GroupHeader where
  /-- `TemporalPositionIndex`, absent tag modelled as `none`. -/
  temporalPositionIndex : Option ℤ
  /-- `len(data.PerFrameFunctionalGroupsSequence)` when that attribute
  exists, `none` when accessing it raises `AttributeError`. -/
  perFrameCount : Option ℕ
  /-- `NumberOfFrames`, absent tag modelled as `none`. -/
  numberOfFrames : Option ℤ
deriving DecidableEq, Repr

/-- `format_error` of the dicom builder. -/
def dicomFormatError (message : String) : String :=
  "Dicom image builder: " ++ message

/-- `int(getattr(data, "TemporalPositionIndex", 0))` where `data` is the
last header of the group. -/
def nTimeOfGroup (hs : List (FileId × GroupHeader)) : ℤ :=
  match hs.getLast? with
  | some p => p.2.temporalPositionIndex.getD 0
  | none => 0

/-- `n_slices_per_file`: length of `PerFrameFunctionalGroupsSequence` of
the last header, else `int(getattr(data, "NumberOfFrames", 1))`. -/
def nSlicesPerFileOfGroup (hs : List (FileId × GroupHeader)) : ℤ :=
  match hs.getLast? with
  | some p =>
    match p.2.perFrameCount with
    | some k => (k : ℤ)
    | none => p.2.numberOfFrames.getD 1
  | none => 1

/-- `n_slices = n_files * n_slices_per_file`, the total frame count of the
group. -/
def totalFramesOfGroup (hs : List (FileId × GroupHeader)) : ℤ :=
  (hs.length : ℤ) * nSlicesPerFileOfGroup hs

/-- Result of `_find_valid_dicom_files` for one group: either a
`DicomDataset` (abstracted to the constructor arguments that matter here)
or per-file entries added to the error map. -/
inductive GroupOutcome where
  | dataset (nTime : Option ℤ) (nSlices : ℤ) (nSlicesPerFile : ℤ)
      (files : List FileId)
  | errors (entries : List (FileId × String))
deriving DecidableEq, Repr

/-- The per-group body of `_find_valid_dicom_files` (dicom.py lines
441-483); `none` corresponds to the `if not headers: continue` branch. -/
def validate_dicom_group (hs : List (FileId × GroupHeader)) :
    Option GroupOutcome :=
  match hs.getLast? with
  | none => none
  | some last =>
    let nFiles : ℤ := hs.length
    let nTime : ℤ := last.2.temporalPositionIndex.getD 0
    let nSlicesPerFile : ℤ :=
      match last.2.perFrameCount with
      | some k => (k : ℤ)
      | none => last.2.numberOfFrames.getD 1
    let nSlices := nFiles * nSlicesPerFile
    if nTime < 1 then
      some (GroupOutcome.dataset none nSlices nSlicesPerFile
        (hs.map Prod.fst))
    else if nFiles % nTime > 0 then
      some (GroupOutcome.errors (hs.map (fun p =>
        (p.1, dicomFormatError "Number of slices per time point differs"))))
    else
      some (GroupOutcome.dataset (some nTime) (nSlices / nTime)
        nSlicesPerFile (hs.map Prod.fst))

/-- Whether the group produced a dataset (rather than errors). -/
def acceptedB : Option GroupOutcome → Bool
  | some (GroupOutcome.dataset _ _ _ _) => true
  | _ => false

/-- C1 counterexample input: three single-frame files that each hold two
frames (`NumberOfFrames = 2`), with `TemporalPositionIndex = 2`: the total
frame count 6 is divisible by `n_time = 2`, but the file count 3 is not. -/
def groupC1 : List (FileId × GroupHeader) :=
  [(0, ⟨some 2, none, some 2⟩), (1, ⟨some 2, none, some 2⟩),
   (2, ⟨some 2, none, some 2⟩)]

/-- C1 witness input: two files, one frame each, two timepoints. -/
def groupC1ok : List (FileId × GroupHeader) :=
  [(0, ⟨some 2, none, none⟩), (1, ⟨some 2, none, none⟩)]

/- ===================================================================
   Photometric inversion
   (dicom.py, PixelValueInverter and _create_itk_from_dcm lines 278-287,
   _add_optional_metadata lines 300-305)
   =================================================================== -/

/-- A NumPy integer dtype: values live in `[lo, lo + 2^width)` and
arithmetic wraps around modulo `2^width` on overflow. -/
structure IntDtype where
  lo : ℤ
  width : ℕ
deriving DecidableEq, Repr

/-- Number of representable values of the dtype. -/
def IntDtype.size (d : IntDtype) : ℤ := 2 ^ d.width

/-- NumPy overflow semantics: wrap an integer into the representable
range. -/
def IntDtype.wrap (d : IntDtype) (z : ℤ) : ℤ := d.lo + (z - d.lo) % d.size

/-- `z` is representable in the dtype. -/
def IntDtype.rep (d : IntDtype) (z : ℤ) : Prop := d.lo ≤ z ∧ z < d.lo + d.size

instance (d : IntDtype) (z : ℤ) : Decidable (d.rep z) := by
  unfold IntDtype.rep
  infer_instance

/-- `np.int16`. -/
def int16 : IntDtype := ⟨-32768, 16⟩

/-- `np.min` on a buffer (the code never calls it on an empty buffer). -/
def listMin : List ℤ → ℤ
  | [] => 0
  | h :: t => t.foldl min h

/-- `np.max` on a buffer. -/
def listMax : List ℤ → ℤ
  | [] => 0
  | h :: t => t.foldl max h

/-- `PixelValueInverter.__init__`:
`self.offset = np.add(np.min(image), np.max(image))` — the addition is
performed in the image dtype, so it wraps on overflow. -/
def inverterOffset (d : IntDtype) (image : List ℤ) : ℤ :=
  d.wrap (listMin image + listMax image)

/-- `PixelValueInverter.invert`: `np.add(-a, self.offset)` in dtype
arithmetic. -/
def invert (d : IntDtype) (image : List ℤ) (v : ℤ) : ℤ :=
  d.wrap (inverterOffset d image - v)

/-- `_create_itk_from_dcm` photometric step: the buffer is inverted iff
the image is not RGB (`samples_per_pixel ≤ 1`) and the photometric
interpretation tag equals MONOCHROME1. -/
def applyPhotometric (photometric : Option String) (samplesPerPixel : ℤ)
    (d : IntDtype) (buf : List ℤ) : List ℤ :=
  if samplesPerPixel > 1 then buf
  else if photometric = some "MONOCHROME1" then buf.map (invert d buf)
  else buf

/-- `_add_optional_metadata`, WindowCenter branch: when the inverter was
created (exactly when the buffer was inverted), the same `invert` is
applied to the WindowCenter values before they reach the metadata. -/
def windowCenterMetadata (photometric : Option String) (samplesPerPixel : ℤ)
    (d : IntDtype) (buf : List ℤ) (wc : List ℤ) : List ℤ :=
  if samplesPerPixel > 1 then wc
  else if photometric = some "MONOCHROME1" then wc.map (invert d buf)
  else wc

/- ===================================================================
   Pixel rescaling
   (dicom.py, _pixel_values_need_scaling, _read_pixel_values, and the
   general one-slice-per-file assembly path of _create_itk_from_dcm)
   =================================================================== -/

/-- `math.isclose(a, b)` with the defaults `rel_tol=1e-9, abs_tol=0.0`,
evaluated exactly on rationals. -/
def isclose (a b : ℚ) : Bool :=
  decide (|a - b| ≤ 1 / 1000000000 * max |a| |b|)

/-- Element type of a pixel buffer. -/
inductive Dtype where
  | int16
  | uint16
  | uint8
  | float32
deriving DecidableEq, Repr

/-- One group member as seen by the pixel assembler: the rescale tags
(`getattr(ds, "RescaleSlope", 1)` and `getattr(ds, "RescaleIntercept", 0)`
with the defaults already substituted), the raw stored pixel samples of
the file and their dtype. -/
structure PixelFile where
  slope : ℚ
  intercept : ℚ
  samples : List ℚ
  rawDtype : Dtype
deriving DecidableEq, Repr

/-- `DicomDataset._pixel_values_need_scaling`. -/
def pixel_values_need_scaling (files : List PixelFile) : Bool :=
  (files.any fun f => !(isclose f.slope 1)) ||
    (files.any fun f => !(isclose f.intercept 0))

/-- `DicomDataset._read_pixel_values`, value part: `slope * raw +
intercept` per sample when `rescale`, the raw samples otherwise. -/
def read_pixel_values (f : PixelFile) (rescale : Bool) : List ℚ :=
  if rescale then f.samples.map (fun v => f.slope * v + f.intercept)
  else f.samples

/-- `self._pixel_value_dtype`: float32 when rescaling is active, else the
raw dtype of the first file read (every later slice is cast to it). -/
def bufferDtype (files : List PixelFile) : Option Dtype :=
  files.head?.map fun f =>
    if pixel_values_need_scaling files then Dtype.float32 else f.rawDtype

/-- General assembly path of `_create_itk_from_dcm` for a 3D group with
one slice per file: slice `index` lands at `z_index = index` when
`z_order ≥ 0` and at `len - 1 - index` otherwise, i.e. the slice sequence
is reversed exactly when `z_order < 0`. -/
def assembleSlices (files : List PixelFile) (zOrder : ℤ) : List (List ℚ) :=
  let slices := files.map fun f =>
    read_pixel_values f (pixel_values_need_scaling files)
  if 0 ≤ zOrder then slices else slices.reverse

/-- C4 witness input: one file with slope 2 and intercept 3. -/
def exScaleFiles : List PixelFile :=
  [⟨2, 3, [5, 7], Dtype.int16⟩]

/- ===================================================================
   Slice geometry
   (dicom.py, DicomDataset._determine_slice_order, the `direction`
   property, and _iter_origins)
   =================================================================== -/

/-- A 3-vector of exact rationals. -/
structure Vec3 where
  x : ℚ
  y : ℚ
  z : ℚ
deriving DecidableEq, Repr

def Vec3.add (a b : Vec3) : Vec3 := ⟨a.x + b.x, a.y + b.y, a.z + b.z⟩

def Vec3.sub (a b : Vec3) : Vec3 := ⟨a.x - b.x, a.y - b.y, a.z - b.z⟩

def Vec3.smul (q : ℚ) (v : Vec3) : Vec3 := ⟨q * v.x, q * v.y, q * v.z⟩

def Vec3.dot (a b : Vec3) : ℚ := a.x * b.x + a.y * b.y + a.z * b.z

/-- `np.cross`. -/
def Vec3.cross (a b : Vec3) : Vec3 :=
  ⟨a.y * b.z - a.z * b.y, a.z * b.x - a.x * b.z, a.x * b.y - a.y * b.x⟩

def Vec3.normSq (v : Vec3) : ℚ := Vec3.dot v v

def Vec3.zero : Vec3 := ⟨0, 0, 0⟩

/-- `np.linalg.norm`, the Euclidean norm. -/
noncomputable def vecNorm (v : Vec3) : ℝ := Real.sqrt ((v.normSq : ℚ) : ℝ)

/-- Loop state of `_determine_slice_order`: `origin`, `origin_diff`,
`origin_seen` and `n_diffs`. -/
structure SliceState where
  origin : Option Vec3
  originDiff : Vec3
  originSeen : List Vec3
  nDiffs : ℕ
deriving DecidableEq, Repr

def initSliceState : SliceState := ⟨none, Vec3.zero, [], 0⟩

/-- One iteration of the `for file_origin in self._iter_origins()` loop.
`any(np.allclose(file_origin, o) for o in origin_seen)` is modelled as
exact membership (the allclose tolerance only absorbs floating-point
noise). -/
def sliceStep (s : SliceState) (o : Vec3) : SliceState :=
  if o ∈ s.originSeen then s
  else
    { origin := some o
      originDiff :=
        match s.origin with
        | some p => s.originDiff.add (o.sub p)
        | none => s.originDiff
      originSeen := s.originSeen ++ [o]
      nDiffs :=
        match s.origin with
        | some _ => s.nDiffs + 1
        | none => s.nDiffs }

/-- The whole loop over the origins yielded by `_iter_origins` in header
(or per-frame) order. -/
def runSliceLoop (origins : List Vec3) : SliceState :=
  origins.foldl sliceStep initSliceState

/-- A DICOM group as seen by `_determine_slice_order`: the origin
sequence, the optional `ImageOrientationPatient` cosines and the optional
`SpacingBetweenSlices` tag. -/
structure GeomGroup where
  origins : List Vec3
  orientation : Option (Vec3 × Vec3)
  spacingBetweenSlices : Option ℚ
deriving DecidableEq, Repr

/-- `row_cos`, defaulting to `(1,0,0)` when the tag is missing. -/
def rowCosOf (g : GeomGroup) : Vec3 :=
  (g.orientation.getD (⟨1, 0, 0⟩, ⟨0, 1, 0⟩)).1

/-- `col_cos`, defaulting to `(0,1,0)` when the tag is missing. -/
def colCosOf (g : GeomGroup) : Vec3 :=
  (g.orientation.getD (⟨1, 0, 0⟩, ⟨0, 1, 0⟩)).2

/-- Apply the 3x3 matrix whose columns are `c1 c2 c3` to `v`. -/
def applyColumns (c1 c2 c3 v : Vec3) : Vec3 :=
  (Vec3.smul v.x c1).add ((Vec3.smul v.y c2).add (Vec3.smul v.z c3))

/-- `z_direction = self.direction @ np.ones(self.dimensions)` restricted
to its first three components.  The direction matrix embeds
`[row_cos | col_cos | row_cos x col_cos]` in an identity matrix of size
`dimensions`; for 4D groups the fourth component of the padded
`avg_origin_diff` is 0 and rows 0-2 of column 3 are 0, so the dot product
in `_determine_slice_order` reduces to these three components for both 3D
and 4D groups. -/
def zDirectionOf (g : GeomGroup) : Vec3 :=
  applyColumns (rowCosOf g) (colCosOf g)
    ((rowCosOf g).cross (colCosOf g)) ⟨1, 1, 1⟩

/-- `np.sign` on an exact rational. -/
def qsign (q : ℚ) : ℤ := if 0 < q then 1 else if q < 0 then -1 else 0

/-- `avg_origin_diff = origin_diff / n_diffs`. -/
def codeAvgDiff (origins : List Vec3) : Vec3 :=
  Vec3.smul (1 / ((runSliceLoop origins).nDiffs : ℚ))
    (runSliceLoop origins).originDiff

/-- `z_order` as computed by `_determine_slice_order`. -/
def zOrderOf (g : GeomGroup) : ℤ :=
  if (runSliceLoop g.origins).nDiffs = 0 then 0
  else qsign ((codeAvgDiff g.origins).dot (zDirectionOf g))

/-- `z_i`, the slice-axis spacing: `SpacingBetweenSlices` (default 1.0)
when `n_diffs == 0`, else `np.linalg.norm(avg_origin_diff)`. -/
noncomputable def zSpacingOf (g : GeomGroup) : ℝ :=
  if (runSliceLoop g.origins).nDiffs = 0 then
    ((g.spacingBetweenSlices.getD 1 : ℚ) : ℝ)
  else vecNorm (codeAvgDiff g.origins)

/-- The final 3-component origin chosen by `_determine_slice_order`:
`origin_seen[0]` when `z_order >= 0`, else the last accepted origin
(`origin`); `(0,0,0)` when no origin was seen at all. -/
def volumeOriginOf (g : GeomGroup) : Vec3 :=
  match (runSliceLoop g.origins).origin with
  | none => Vec3.zero
  | some last =>
    if 0 ≤ zOrderOf g then
      (runSliceLoop g.origins).originSeen.headD Vec3.zero
    else last

/-- The deduplicated origin list, in first-occurrence order (the claim's
vocabulary; the loop's `origin_seen` is proved equal to it). -/
def dedupOrigins (origins : List Vec3) : List Vec3 :=
  origins.foldl (fun acc o => if o ∈ acc then acc else acc ++ [o]) []

/-- Differences between successive list entries. -/
def successiveDiffs : List Vec3 → List Vec3
  | a :: b :: t => b.sub a :: successiveDiffs (b :: t)
  | _ => []

def sumVec : List Vec3 → Vec3
  | [] => Vec3.zero
  | v :: t => v.add (sumVec t)

/-- Average of the successive origin differences of a list. -/
def avgSuccDiff (l : List Vec3) : Vec3 :=
  Vec3.smul (1 / ((l.length - 1 : ℕ) : ℚ)) (sumVec (successiveDiffs l))

/-- C2 witness input: three collinear origins along the z axis with the
default orientation. -/
def exGeom : GeomGroup :=
  ⟨[⟨0, 0, 0⟩, ⟨0, 0, 1⟩, ⟨0, 0, 2⟩], none, none⟩

/- ===================================================================
   In-plane pixel spacing lookup
   (dicom.py, _find_dicom_tag lines 38-45 and _determine_slice_order
   lines 167-172)
   =================================================================== -/

/-- The places `dataset.iterall()` can find a PixelSpacing element in a
(possibly enhanced) DICOM header: the top-level tag, the shared
functional-groups pixel-measures entry and the per-frame entries, in
iteration order. -/
structure SpacingSource where
  topPixelSpacing : Option (ℚ × ℚ)
  sharedPixelSpacing : Option (ℚ × ℚ)
  perFramePixelSpacing : List (Option (ℚ × ℚ))
  isEnhanced : Bool
deriving DecidableEq, Repr

/-- First present value in a list of optional values. -/
def firstSome : List (Option (ℚ × ℚ)) → Option (ℚ × ℚ)
  | [] => none
  | some v :: _ => some v
  | none :: t => firstSome t

/-- `_find_dicom_tag(self.ref_header, "PixelSpacing")` as an `Option`:
the first occurrence in `iterall()` order; `none` models the raised
`DicomTagNotFoundError`. -/
def find_pixel_spacing_tag (s : SpacingSource) : Option (ℚ × ℚ) :=
  firstSome ([s.topPixelSpacing, s.sharedPixelSpacing] ++
    s.perFramePixelSpacing)

/-- `_determine_slice_order` lines 167-172: when the recursive tag search
fails the spacing silently defaults to `(1.0, 1.0)`; there is no error
path. -/
def inPlaneSpacing (s : SpacingSource) : ℚ × ℚ :=
  (find_pixel_spacing_tag s).getD (1, 1)

/-- C8 counterexample input: an enhanced header with two frames and no
pixel-spacing source anywhere. -/
def exEnhancedNoSpacing : SpacingSource := ⟨none, none, [none, none], true⟩

/- ===================================================================
   Metadata validation
   (models.py, DICOM_VR_TO_VALIDATION_REGEXP, ExtraMetaData.validate_value
   and validate_metadata_value; dicom.py, OPTIONAL_METADATA_FIELDS,
   _add_optional_metadata and image_builder_dicom lines 509-514)
   =================================================================== -/

/-- `^\d{3}[DWMY]$` (VR AS), anchored full match (the trailing-newline
subtlety of `$` in Python regexes is not modelled). -/
def matchAS (s : List Char) : Bool :=
  match s with
  | [a, b, c, d] =>
    a.isDigit && b.isDigit && c.isDigit &&
      (d == 'D' || d == 'W' || d == 'M' || d == 'Y')
  | _ => false

/-- A character of the class `[A-Z\d _]`. -/
def csChar (c : Char) : Bool :=
  (decide ('A' ≤ c) && decide (c ≤ 'Z')) || c.isDigit || c == ' ' || c == '_'

/-- `^[A-Z\d _]{0,16}$` (VR CS). -/
def matchCS (s : List Char) : Bool := decide (s.length ≤ 16) && s.all csChar

/-- `^\d{8}$` (VR DA). -/
def matchDA (s : List Char) : Bool :=
  decide (s.length = 8) && s.all Char.isDigit

/-- `^[^\\]{0,64}$` (VR LO). -/
def matchLO (s : List Char) : Bool :=
  decide (s.length ≤ 64) && s.all (fun c => !(c == '\\'))

/-- `^[^\\]{0,324}$` (VR PN). -/
def matchPN (s : List Char) : Bool :=
  decide (s.length ≤ 324) && s.all (fun c => !(c == '\\'))

/-- `^[\d.]{0,64}$` (VR UI). -/
def matchUI (s : List Char) : Bool :=
  decide (s.length ≤ 64) && s.all (fun c => c.isDigit || c == '.')

/-- `int()` on a digit string. -/
def digitsToNat (s : List Char) : ℕ :=
  s.foldl (fun a c => 10 * a + (c.toNat - '0'.toNat)) 0

/-- Gregorian leap year, as used by `datetime.date`. -/
def isLeapYear (y : ℕ) : Bool :=
  (decide (y % 4 = 0) && !(decide (y % 100 = 0))) || decide (y % 400 = 0)

def daysInMonth (y m : ℕ) : ℕ :=
  if m = 2 then (if isLeapYear y then 29 else 28)
  else if m = 4 ∨ m = 6 ∨ m = 9 ∨ m = 11 then 30
  else 31

/-- Whether `datetime.date(int(v[:4]), int(v[4:6]), int(v[6:8]))`
succeeds on an 8-digit string (`DICOM_VR_TO_VALUE_CAST["DA"]`). -/
def castDA (s : List Char) : Bool :=
  let y := digitsToNat (s.take 4)
  let m := digitsToNat ((s.drop 4).take 2)
  let d := digitsToNat ((s.drop 6).take 2)
  decide (1 ≤ y ∧ y ≤ 9999 ∧ 1 ≤ m ∧ m ≤ 12 ∧ 1 ≤ d ∧ d ≤ daysInMonth y m)

/-- DICOM Value Representation classes used by the whitelist. -/
inductive VR where
  | AS
  | CS
  | DA
  | LO
  | PN
  | UI
deriving DecidableEq, Repr

/-- `ExtraMetaData.validate_value`: empty values pass; otherwise the VR
pattern must match, and for DA the date cast must succeed (the default
cast never raises).  `true` means no ValidationError. -/
def validate_value (vr : VR) (v : String) : Bool :=
  if v = "" then true
  else
    match vr with
    | VR.AS => matchAS v.toList
    | VR.CS => matchCS v.toList
    | VR.DA => matchDA v.toList && castDA v.toList
    | VR.LO => matchLO v.toList
    | VR.PN => matchPN v.toList
    | VR.UI => matchUI v.toList

/-- `EXTRA_METADATA`, keyword and VR class. -/
def extraMetadata : List (String × VR) :=
  [("PatientID", VR.LO), ("PatientName", VR.PN),
   ("PatientBirthDate", VR.DA), ("PatientAge", VR.AS),
   ("PatientSex", VR.CS), ("StudyDate", VR.DA),
   ("StudyInstanceUID", VR.UI), ("SeriesInstanceUID", VR.UI),
   ("StudyDescription", VR.LO), ("SeriesDescription", VR.LO)]

/-- `validate_metadata_value(key, value)`: only whitelisted
EXTRA_METADATA keywords are validated. -/
def validate_metadata_value (key value : String) : Bool :=
  match extraMetadata.find? (fun p => p.1 == key) with
  | some p => validate_value p.2 value
  | none => true

/-- `OPTIONAL_METADATA_FIELDS`. -/
def optionalMetadataFields : List String :=
  ["Laterality", "SliceThickness", "WindowCenter", "WindowWidth"] ++
    extraMetadata.map Prod.fst

/-- Loop body of `_add_optional_metadata` (validation aspect; the
WindowCenter inversion branch is modelled separately above): skip empty
string values, raise ValidationError (abstracted to the offending
keyword) on the first invalid value, else record the metadata entry. -/
def addMetaGo (hdr : String → String) :
    List String → Except String (List (String × String))
  | [] => Except.ok []
  | f :: rest =>
    if hdr f = "" then addMetaGo hdr rest
    else if validate_metadata_value f (hdr f) then
      match addMetaGo hdr rest with
      | Except.ok l => Except.ok ((f, hdr f) :: l)
      | Except.error e => Except.error e
    else Except.error f

/-- `DicomDataset._add_optional_metadata`: there is no try/except around
`validate_metadata_value`, so a ValidationError escapes `read()`. -/
def add_optional_metadata (hdr : String → String) :
    Except String (List (String × String)) :=
  addMetaGo hdr optionalMetadataFields

/-- The per-group try/except of `image_builder_dicom` (lines 509-514)
restricted to the metadata-validation failure mode: an escaping
ValidationError yields one error entry per member file and no record for
the group. -/
def dicom_group_emit (files : List FileId) (hdr : String → String) :
    Except (List (FileId × String)) (List (String × String)) :=
  match add_optional_metadata hdr with
  | Except.ok meta => Except.ok meta
  | Except.error kw =>
    Except.error (files.map (fun p =>
      (p, dicomFormatError ("validation failed for " ++ kw))))

/-- C7 counterexample input: `PatientAge = "12Y"` fails the AS pattern
`^\d{3}[DWMY]$` (three digits required). -/
def exBadHdr : String → String :=
  fun f => if f = "PatientAge" then "12Y" else ""

/- ===================================================================
   E2E laterality scan and OCT record emission
   (e2e.py, read_oct_volume first pass lines 93-113 and record
   construction lines 147-157; oct.py, LATERALITY_TO_EYE_CHOICE,
   _create_itk_images and image_builder_oct)
   =================================================================== -/

/-- One type-11 (laterality) chunk event seen during the MDbData scan:
the parsed laterality byte, or a parse failure of the 20-byte record. -/
inductive LatEvent where
  | parsed (b : ℕ)
  | failed
deriving DecidableEq, Repr

/-- Effect of one laterality chunk on `self.laterality`.  The outer
`Option` is the attribute state: `none` means the attribute was never
assigned.  Byte 82 sets "R", byte 76 sets "L", a parse failure sets
Python `None` (inner `none`); any other byte value leaves the attribute
untouched — the code has no else branch. -/
def latStep (s : Option (Option String)) (e : LatEvent) :
    Option (Option String) :=
  match e with
  | LatEvent.parsed 82 => some (some "R")
  | LatEvent.parsed 76 => some (some "L")
  | LatEvent.parsed _ => s
  | LatEvent.failed => some none

/-- `self.laterality` after the first pass over all MDbData chunks. -/
def lateralityAfter (events : List LatEvent) : Option (Option String) :=
  events.foldl latStep none

/-- Constructing the `OCTVolumeWithMetaData` records at the end of
`read_oct_volume`: each record reads `self.laterality`; when the
attribute was never assigned, Python raises `AttributeError`. -/
def buildOctVolumes (volumes : List String) (events : List LatEvent) :
    Except String (List (String × Option String)) :=
  match volumes with
  | [] => Except.ok []
  | _ =>
    match lateralityAfter events with
    | none => Except.error "AttributeError"
    | some lat => Except.ok (volumes.map (fun v => (v, lat)))

/-- Outcome of processing one OCT file inside `image_builder_oct`: the
except clause catches only OSError, ValidationError, StreamError,
ValueError and IndexError, so an `AttributeError` escaping the reader is
not recorded in the error map — it aborts the whole batch. -/
inductive OctScanOutcome where
  | records (rs : List (String × Option String))
  | fileError (msg : String)
  | abort (msg : String)
deriving DecidableEq, Repr

/-- `image_builder_oct` around the E2E volume read, for the laterality
failure mode. -/
def process_e2e_volumes (volumes : List String) (events : List LatEvent) :
    OctScanOutcome :=
  match buildOctVolumes volumes events with
  | Except.ok rs => OctScanOutcome.records rs
  | Except.error e => OctScanOutcome.abort e

/-- `EyeChoice` values used by the OCT builder. -/
inductive EyeChoice where
  | oculusDexter
  | oculusSinister
  | unknownEye
deriving DecidableEq, Repr

/-- `LATERALITY_TO_EYE_CHOICE`, a defaultdict: "L" maps to OS, "R" to OD,
anything else (including Python None) to unknown. -/
def lateralityToEyeChoice : Option String → EyeChoice
  | some "L" => EyeChoice.oculusSinister
  | some "R" => EyeChoice.oculusDexter
  | _ => EyeChoice.unknownEye

/-- A decoded OCT volume (metadata part). -/
structure OctVolume where
  patientId : String
  laterality : Option String
deriving DecidableEq, Repr

/-- A decoded fundus image (metadata part). -/
structure FundusImage where
  patientId : String
  laterality : Option String
deriving DecidableEq, Repr

/-- An emitted record (abstracted `SimpleITKImage`). -/
structure OctRecord where
  name : String
  isFundus : Bool
  eye : EyeChoice
deriving DecidableEq, Repr

/-- `_create_itk_images`: one record per OCT volume, then one per fundus
image (named stem + "_fundus"). -/
def create_itk_images (fileName : String) (volumes : List OctVolume)
    (fundus : List FundusImage) : List OctRecord :=
  volumes.map (fun v =>
      ⟨fileName, false, lateralityToEyeChoice v.laterality⟩) ++
    fundus.map (fun f =>
      ⟨fileName ++ "_fundus", true, lateralityToEyeChoice f.laterality⟩)

/-- `image_builder_oct` per-file emission (oct.py lines 237-243): the
decoded fundus images are NOT forwarded — the call site passes the empty
list ("Skip fundus_images until we decide how to handle these"). -/
def image_builder_oct_emit (fileName : String) (volumes : List OctVolume)
    (fundus : List FundusImage) : List OctRecord :=
  create_itk_images fileName volumes []

/-- C10 counterexample inputs: a file decoding to one volume and one
fundus image. -/
def exVol : OctVolume := ⟨"p", some "R"⟩

def exFun : FundusImage := ⟨"p", some "R"⟩

/- ===================================================================
   Batch bookkeeping of image_builder_dicom
   (dicom.py, _get_headers_by_study, _find_valid_dicom_files and
   image_builder_dicom)
   =================================================================== -/

/-- A decoded header, as needed for grouping and validation. -/
structure FullHeader where
  studyInstanceUID : String
  seriesInstanceUID : String
  stackID : Option String
  sopClassUID : String
  instanceNumber : ℤ
  grp : GroupHeader
deriving DecidableEq, Repr

/-- What opening one input path and reading its header does:
`not file.is_file()`, a `pydicom.dcmread` exception (any exception in the
per-file try block), or a decoded header. -/
inductive FileKind where
  | notAFile
  | unreadable (msg : String)
  | valid (hdr : FullHeader)
deriving DecidableEq, Repr

structure InputFile where
  path : FileId
  kind : FileKind
deriving DecidableEq, Repr

/-- `(StudyInstanceUID, StackID-or-SeriesInstanceUID, SOPClassUID)`. -/
abbrev StudyKey := String × String × String

def headerKey (h : FullHeader) : StudyKey :=
  (h.studyInstanceUID, h.stackID.getD h.seriesInstanceUID, h.sopClassUID)

/-- The successfully decoded `(path, header)` pairs in iteration order. -/
def validFiles (inputs : List InputFile) : List (FileId × FullHeader) :=
  inputs.filterMap (fun f =>
    match f.kind with
    | FileKind.valid h => some (f.path, h)
    | _ => none)

/-- The decode errors recorded by `_get_headers_by_study`
(`file_errors[file].append(format_error(str(e)))`). -/
def readErrors (inputs : List InputFile) : List (FileId × String) :=
  inputs.filterMap (fun f =>
    match f.kind with
    | FileKind.unreadable m => some (f.path, dicomFormatError m)
    | _ => none)

/-- Dict keys in first-insertion order. -/
def dedupKeys (ks : List StudyKey) : List StudyKey :=
  ks.foldl (fun acc k => if k ∈ acc then acc else acc ++ [k]) []

/-- The keys of the `studies` dict built by `_get_headers_by_study`. -/
def studyKeys (inputs : List InputFile) : List StudyKey :=
  dedupKeys ((validFiles inputs).map (fun p => headerKey p.2))

/-- `studies[key]["headers"]`, sorted by InstanceNumber (stable sort,
like Python's), projected to the fields group validation uses. -/
def groupOf (inputs : List InputFile) (k : StudyKey) :
    List (FileId × GroupHeader) :=
  ((((validFiles inputs).filter
        (fun p => decide (headerKey p.2 = k))).mergeSort
      (fun a b => decide (a.2.instanceNumber ≤ b.2.instanceNumber))).map
    (fun p => (p.1, p.2.grp)))

/-- One group produces a record (its consumed-file list) when it
validates and `read()` succeeds; the `readOk` oracle abstracts the
try/except around `dicom_ds.read()`, which catches any exception. -/
def groupRecordOf (inputs : List InputFile) (readOk : StudyKey → Bool)
    (k : StudyKey) : Option (List FileId) :=
  match validate_dicom_group (groupOf inputs k) with
  | some (GroupOutcome.dataset _ _ _ fs) =>
    if readOk k then some fs else none
  | _ => none

/-- The error entries one group contributes: the 4D-rejection entries, or
one entry per member file when `read()` raised. -/
def groupErrorsOf (inputs : List InputFile) (readOk : StudyKey → Bool)
    (k : StudyKey) : List (FileId × String) :=
  match validate_dicom_group (groupOf inputs k) with
  | none => []
  | some (GroupOutcome.dataset _ _ _ fs) =>
    if readOk k then []
    else fs.map (fun p => (p, dicomFormatError "read failed"))
  | some (GroupOutcome.errors es) => es

/-- The `for dicom_ds in studies` loop body of `image_builder_dicom`. -/
def builderStep (inputs : List InputFile) (readOk : StudyKey → Bool)
    (acc : List (List FileId) × List (FileId × String)) (k : StudyKey) :
    List (List FileId) × List (FileId × String) :=
  match validate_dicom_group (groupOf inputs k) with
  | none => acc
  | some (GroupOutcome.dataset _ _ _ fs) =>
    if readOk k then (acc.1 ++ [fs], acc.2)
    else (acc.1, acc.2 ++ fs.map (fun p =>
      (p, dicomFormatError "read failed")))
  | some (GroupOutcome.errors es) => (acc.1, acc.2 ++ es)

/-- Consumed-file lists of the yielded records, and the error map (as an
association list; several entries per path are possible in general). -/
structure BuilderOutput where
  records : List (List FileId)
  errors : List (FileId × String)
deriving DecidableEq, Repr

/-- `image_builder_dicom`: decode errors are recorded first, then every
study group either yields a record or contributes error entries. -/
def image_builder_dicom_run (inputs : List InputFile)
    (readOk : StudyKey → Bool) : BuilderOutput :=
  let res := (studyKeys inputs).foldl (builderStep inputs readOk)
    ([], readErrors inputs)
  ⟨res.1, res.2⟩

/-- `if file_errors: raise UnconsumedFilesException(file_errors=...)`. -/
def raisesUnconsumed (out : BuilderOutput) : Bool := !out.errors.isEmpty

/-- `p` is among the consumed files of some emitted record. -/
def consumedIn (out : BuilderOutput) (p : FileId) : Prop :=
  ∃ r ∈ out.records, p ∈ r

/-- `p` is a key of the error map. -/
def erroredIn (out : BuilderOutput) (p : FileId) : Prop :=
  ∃ m, (p, m) ∈ out.errors

/-- C6 counterexample input: one path that is not a regular file. -/
def exInputsC6 : List InputFile := [⟨0, FileKind.notAFile⟩]

/-- C6 witness input: a valid single-slice file, an unreadable file and a
non-file path. -/
def exInputsMix : List InputFile :=
  [⟨0, FileKind.valid ⟨"s", "se", none, "sop", 1, ⟨none, none, none⟩⟩⟩,
   ⟨1, FileKind.unreadable "bad header"⟩,
   ⟨2, FileKind.notAFile⟩]

/-- Errors contributed by a list of study keys. -/
def concatGroupErrors (inputs : List InputFile) (readOk : StudyKey → Bool) :
    List StudyKey → List (FileId × String)
  | [] => []
  | k :: t => groupErrorsOf inputs readOk k ++
      concatGroupErrors inputs readOk t

-- ===== THEOREMS =====

theorem range8 : List.range 8 = [0, 1, 2, 3, 4, 5, 6, 7] := rfl

theorem range10 : List.range 10 = [0, 1, 2, 3, 4, 5, 6, 7, 8, 9] := rfl

theorem range6 : List.range 6 = [0, 1, 2, 3, 4, 5] := rfl

theorem bitAt_le_one (n i : ℕ) : bitAt n i ≤ 1 :=
  Nat.lt_succ_iff.mp (Nat.mod_lt _ (by norm_num))

/-- The mantissa field of `read_custom_float`, in closed form. -/
theorem mantissa_closed (b0 b1 : ℕ) :
    binVal ((byteBitsRev b0 ++ byteBitsRev b1).take 10) =
      512 * bitAt b0 0 + 256 * bitAt b0 1 + 128 * bitAt b0 2 +
      64 * bitAt b0 3 + 32 * bitAt b0 4 + 16 * bitAt b0 5 +
      8 * bitAt b0 6 + 4 * bitAt b0 7 + 2 * bitAt b1 0 + bitAt b1 1 := by
  simp only [byteBitsRev, range8, List.map_cons, List.map_nil,
    List.append_nil, List.cons_append, List.nil_append, List.take, binVal,
    List.foldl]
  ring

/-- The exponent field of `read_custom_float`, in closed form: the string
is reversed a second time, so the field is read in natural bit order. -/
theorem exponent_closed (b0 b1 : ℕ) :
    binVal (((byteBitsRev b0 ++ byteBitsRev b1).drop 10).reverse) =
      32 * bitAt b1 7 + 16 * bitAt b1 6 + 8 * bitAt b1 5 +
      4 * bitAt b1 4 + 2 * bitAt b1 3 + bitAt b1 2 := by
  simp only [byteBitsRev, range8, List.map_cons, List.map_nil,
    List.append_nil, List.cons_append, List.nil_append, List.drop, binVal,
    List.reverse_cons, List.reverse_nil, List.foldl, List.nil_append,
    List.cons_append]
  ring

/-- The claimed bit-reversed mantissa of the word, in closed form. -/
theorem bitrev10_closed (m : ℕ) :
    bitrevField 10 m =
      512 * bitAt m 0 + 256 * bitAt m 1 + 128 * bitAt m 2 +
      64 * bitAt m 3 + 32 * bitAt m 4 + 16 * bitAt m 5 +
      8 * bitAt m 6 + 4 * bitAt m 7 + 2 * bitAt m 8 + bitAt m 9 := by
  simp only [bitrevField, range10, List.map_cons, List.map_nil, binVal,
    List.foldl]
  ring

theorem bitrevField_ten_le (n : ℕ) : bitrevField 10 n ≤ 1023 := by
  rw [bitrev10_closed]
  have h0 := bitAt_le_one n 0
  have h1 := bitAt_le_one n 1
  have h2 := bitAt_le_one n 2
  have h3 := bitAt_le_one n 3
  have h4 := bitAt_le_one n 4
  have h5 := bitAt_le_one n 5
  have h6 := bitAt_le_one n 6
  have h7 := bitAt_le_one n 7
  have h8 := bitAt_le_one n 8
  have h9 := bitAt_le_one n 9
  omega

theorem twoPowInt_pos (e : ℤ) : 0 < twoPowInt e := by
  unfold twoPowInt
  split <;> positivity

theorem twoPowInt_negNat (n : ℕ) : twoPowInt (-(n : ℤ)) = 1 / 2 ^ n := by
  unfold twoPowInt
  rcases Nat.eq_zero_or_pos n with h | h
  · subst h
    norm_num
  · rw [if_neg (by omega), neg_neg, Int.toNat_natCast]

theorem twoPowInt_le_one (e : ℤ) (h : e ≤ 0) : twoPowInt e ≤ 1 := by
  unfold twoPowInt
  split
  · have he : e = 0 := le_antisymm h (by assumption)
    subst he
    norm_num
  · rw [div_le_one (by positivity)]
    exact one_le_pow₀ (by norm_num)

/-- The mantissa field the code reads equals the bit-reversed low ten bits
of the little-endian word. -/
theorem mantissa_field_eq (b0 b1 : ℕ) (h0 : b0 < 256) (h1 : b1 < 256) :
    binVal ((byteBitsRev b0 ++ byteBitsRev b1).take 10) =
      bitrevField 10 ((b0 + 256 * b1) % 1024) := by
  rw [mantissa_closed, bitrev10_closed]
  simp only [bitAt]
  norm_num
  omega

/-- The exponent field the code reads equals the high six bits of the
little-endian word in natural (not reversed) bit order. -/
theorem exponent_field_eq (b0 b1 : ℕ) (h0 : b0 < 256) (h1 : b1 < 256) :
    binVal (((byteBitsRev b0 ++ byteBitsRev b1).drop 10).reverse) =
      (b0 + 256 * b1) / 1024 := by
  rw [exponent_closed]
  simp only [bitAt]
  norm_num
  omega

/-- C3 (amended): for every 16-bit little-endian word (bytes `b0`, `b1`)
the decoder returns `(1 + mantissa/1024) * 2^(exponent - 63)` where the
10-bit mantissa field is read bit-reversed but the 6-bit exponent field is
read in natural bit order (the code reverses that substring back); every
decoded value is below 2, so no bit pattern decodes to 3.0, and the
pattern with exponent 63 and mantissa 0 (bytes 0x00, 0xFC) decodes to 1.0. -/
theorem read_custom_float_characterization (b0 b1 : ℕ)
    (h0 : b0 < 256) (h1 : b1 < 256) :
    read_custom_float b0 b1 =
      (1 + (bitrevField 10 ((b0 + 256 * b1) % 1024) : ℚ) / 1024)
        * twoPowInt ((((b0 + 256 * b1) / 1024 : ℕ) : ℤ) - 63) ∧
    read_custom_float b0 b1 < 2 ∧
    read_custom_float 0 252 = 1 := by
  have hm := mantissa_field_eq b0 b1 h0 h1
  have he := exponent_field_eq b0 b1 h0 h1
  have heq : read_custom_float b0 b1 =
      (1 + (bitrevField 10 ((b0 + 256 * b1) % 1024) : ℚ) / 1024)
        * twoPowInt ((((b0 + 256 * b1) / 1024 : ℕ) : ℤ) - 63) := by
    simp only [read_custom_float]
    rw [hm, he]
  have hone : read_custom_float 0 252 = 1 := by
    have hm2 : binVal ((byteBitsRev 0 ++ byteBitsRev 252).take 10) = 0 := by
      decide
    have he2 : binVal (((byteBitsRev 0 ++ byteBitsRev 252).drop 10).reverse)
        = 63 := by decide
    simp only [read_custom_float, hm2, he2]
    norm_num [twoPowInt]
  refine ⟨heq, ?_, hone⟩
  rw [heq]
  have hMle : (bitrevField 10 ((b0 + 256 * b1) % 1024) : ℚ) ≤ 1023 := by
    exact_mod_cast bitrevField_ten_le _
  have hMpos : (0 : ℚ) ≤ (bitrevField 10 ((b0 + 256 * b1) % 1024) : ℚ) := by
    positivity
  have hEle : (((b0 + 256 * b1) / 1024 : ℕ) : ℤ) - 63 ≤ 0 := by
    have : (b0 + 256 * b1) / 1024 ≤ 63 := by omega
    omega
  have h2 := twoPowInt_le_one _ hEle
  have h3 := twoPowInt_pos ((((b0 + 256 * b1) / 1024 : ℕ) : ℤ) - 63)
  nlinarith

/-- C3 counterexample: for the word 1024 (bytes 0x00, 0x04) the decoder
does not return the value demanded by the claim (both fields read
bit-reversed): the code reads the exponent field in natural order and
yields `2^(1-63)`, while the claimed bit-reversed reading would yield
`2^(32-63)`. -/
theorem read_custom_float_not_spec :
    read_custom_float 0 4 ≠ spec_custom_float (0 + 256 * 4) ∧
    read_custom_float 0 4 = 1 / 2 ^ 62 ∧
    spec_custom_float (0 + 256 * 4) = 1 / 2 ^ 31 := by
  have hm : binVal ((byteBitsRev 0 ++ byteBitsRev 4).take 10) = 0 := by
    decide
  have he : binVal (((byteBitsRev 0 ++ byteBitsRev 4).drop 10).reverse)
      = 1 := by decide
  have hcode : read_custom_float 0 4 = 1 / 2 ^ 62 := by
    simp only [read_custom_float, hm, he]
    rw [show ((1 : ℕ) : ℤ) - 63 = -((62 : ℕ) : ℤ) from by norm_num,
      twoPowInt_negNat]
    norm_num
  have hm2 : bitrevField 10 ((0 + 256 * 4) % 1024) = 0 := by decide
  have he2 : bitrevField 6 ((0 + 256 * 4) / 1024) = 32 := by decide
  have hspec : spec_custom_float (0 + 256 * 4) = 1 / 2 ^ 31 := by
    simp only [spec_custom_float, hm2, he2]
    rw [show ((32 : ℕ) : ℤ) - 63 = -((31 : ℕ) : ℤ) from by norm_num,
      twoPowInt_negNat]
    norm_num
  refine ⟨?_, hcode, hspec⟩
  rw [hcode, hspec]
  norm_num

/-- Witness for `read_custom_float_characterization` at bytes (0, 252). -/
theorem read_custom_float_characterization_witness :
    read_custom_float 0 252 =
      (1 + (bitrevField 10 ((0 + 256 * 252) % 1024) : ℚ) / 1024)
        * twoPowInt ((((0 + 256 * 252) / 1024 : ℕ) : ℤ) - 63) ∧
    read_custom_float 0 252 < 2 ∧
    read_custom_float 0 252 = 1 :=
  read_custom_float_characterization 0 252 (by decide) (by decide)

/-- C1 counterexample: the group `groupC1` has `n_time = 2` and
`total_frames = 6` with `total_frames % n_time = 0`, yet the code rejects
it (acceptance tests `len(headers) % n_time`, i.e. the file count, not the
frame count) and every member file receives the "differs" error. -/
theorem validate_dicom_group_counterexample :
    nTimeOfGroup groupC1 = 2 ∧
    totalFramesOfGroup groupC1 = 6 ∧
    totalFramesOfGroup groupC1 % nTimeOfGroup groupC1 = 0 ∧
    acceptedB (validate_dicom_group groupC1) = false ∧
    validate_dicom_group groupC1 =
      some (GroupOutcome.errors
        [(0, dicomFormatError "Number of slices per time point differs"),
         (1, dicomFormatError "Number of slices per time point differs"),
         (2, dicomFormatError "Number of slices per time point differs")]) := by
  refine ⟨by decide, by decide, by decide, by decide, by rfl⟩

/-- C1 (amended): for every group whose last header declares a temporal
position index `n_time ≥ 1`, the group is accepted exactly when the number
of member FILES is divisible by `n_time` (the code tests
`len(headers) % n_time`, not `total_frames % n_time`); on acceptance
`n_slices = total_frames / n_time` (and `total_frames` is then divisible
by `n_time` as well, since `total_frames = n_files * n_slices_per_file`);
otherwise every member file receives the "Number of slices per time point
differs" error and no dataset is produced for the group. -/
theorem validate_dicom_group_spec (hs : List (FileId × GroupHeader))
    (h1 : 1 ≤ nTimeOfGroup hs) :
    ((hs.length : ℤ) % nTimeOfGroup hs = 0 →
      validate_dicom_group hs =
        some (GroupOutcome.dataset (some (nTimeOfGroup hs))
          (totalFramesOfGroup hs / nTimeOfGroup hs)
          (nSlicesPerFileOfGroup hs) (hs.map Prod.fst)) ∧
      totalFramesOfGroup hs % nTimeOfGroup hs = 0) ∧
    ((hs.length : ℤ) % nTimeOfGroup hs ≠ 0 →
      validate_dicom_group hs =
        some (GroupOutcome.errors (hs.map (fun p =>
          (p.1, dicomFormatError
            "Number of slices per time point differs"))))) := by
  cases hl : hs.getLast? with
  | none =>
    exfalso
    simp only [nTimeOfGroup, hl] at h1
    omega
  | some last =>
    have hnt : nTimeOfGroup hs = last.2.temporalPositionIndex.getD 0 := by
      simp only [nTimeOfGroup, hl]
    have hspf : nSlicesPerFileOfGroup hs =
        (match last.2.perFrameCount with
         | some k => (k : ℤ)
         | none => last.2.numberOfFrames.getD 1) := by
      simp only [nSlicesPerFileOfGroup, hl]
    rw [hnt] at h1
    constructor
    · intro hdvd
      rw [hnt] at hdvd
      have hout : validate_dicom_group hs =
          some (GroupOutcome.dataset (some (last.2.temporalPositionIndex.getD 0))
            (((hs.length : ℤ) *
              (match last.2.perFrameCount with
               | some k => (k : ℤ)
               | none => last.2.numberOfFrames.getD 1)) /
              last.2.temporalPositionIndex.getD 0)
            (match last.2.perFrameCount with
             | some k => (k : ℤ)
             | none => last.2.numberOfFrames.getD 1)
            (hs.map Prod.fst)) := by
        simp only [validate_dicom_group, hl]
        rw [if_neg (by omega), if_neg (by omega)]
      have hdvd2 : (last.2.temporalPositionIndex.getD 0) ∣
          totalFramesOfGroup hs := by
        rw [totalFramesOfGroup, hspf]
        exact Dvd.dvd.mul_right (Int.dvd_of_emod_eq_zero hdvd) _
      refine ⟨?_, ?_⟩
      · rw [hout, hnt, hspf, totalFramesOfGroup, hspf]
      · rw [hnt]
        exact Int.emod_eq_zero_of_dvd hdvd2
    · intro hndvd
      rw [hnt] at hndvd
      have hpos : (hs.length : ℤ) % last.2.temporalPositionIndex.getD 0 ≥ 0 :=
        Int.emod_nonneg _ (by omega)
      simp only [validate_dicom_group, hl]
      rw [if_neg (by omega), if_pos (by omega)]

/-- Witness for `validate_dicom_group_spec` on the concrete accepted group
`groupC1ok` (two files, `n_time = 2`). -/
theorem validate_dicom_group_spec_witness :
    validate_dicom_group groupC1ok =
      some (GroupOutcome.dataset (some 2) 1 1 [0, 1]) ∧
    totalFramesOfGroup groupC1ok % nTimeOfGroup groupC1ok = 0 := by
  have h := (validate_dicom_group_spec groupC1ok (by decide)).1 (by decide)
  refine ⟨?_, h.2⟩
  rw [h.1]
  decide

theorem IntDtype.size_pos (d : IntDtype) : 0 < d.size :=
  pow_pos (by norm_num) _

theorem IntDtype.wrap_emod (d : IntDtype) (z : ℤ) :
    d.wrap z % d.size = z % d.size := by
  unfold IntDtype.wrap
  conv_lhs => rw [Int.add_emod, Int.emod_emod_of_dvd _ dvd_rfl,
    ← Int.add_emod]
  congr 1
  ring

theorem IntDtype.rep_wrap (d : IntDtype) (z : ℤ) : d.rep (d.wrap z) := by
  unfold IntDtype.rep IntDtype.wrap
  have h1 : 0 ≤ (z - d.lo) % d.size :=
    Int.emod_nonneg _ (ne_of_gt d.size_pos)
  have h2 : (z - d.lo) % d.size < d.size :=
    Int.emod_lt_of_pos _ d.size_pos
  omega

theorem IntDtype.wrap_eq_of_rep (d : IntDtype) (z : ℤ) (h : d.rep z) :
    d.wrap z = z := by
  unfold IntDtype.rep at h
  unfold IntDtype.wrap
  rw [Int.emod_eq_of_lt (by omega) (by omega)]
  ring

theorem IntDtype.rep_inj (d : IntDtype) (a b : ℤ) (ha : d.rep a)
    (hb : d.rep b) (h : a % d.size = b % d.size) : a = b := by
  have hd : d.size ∣ a - b := by
    apply Int.dvd_of_emod_eq_zero
    rw [Int.sub_emod, h, sub_self, Int.zero_emod]
  obtain ⟨k, hk⟩ := hd
  unfold IntDtype.rep at ha hb
  have hs := d.size_pos
  rcases lt_trichotomy k 0 with hk0 | hk0 | hk0
  · have : d.size * k ≤ d.size * (-1) :=
      mul_le_mul_of_nonneg_left (by omega) (le_of_lt hs)
    omega
  · subst hk0
    omega
  · have : d.size * 1 ≤ d.size * k :=
      mul_le_mul_of_nonneg_left (by omega) (le_of_lt hs)
    omega

theorem foldl_min_le_init (l : List ℤ) (a : ℤ) : l.foldl min a ≤ a := by
  induction l generalizing a with
  | nil => simp
  | cons h t ih => exact le_trans (ih (min a h)) (min_le_left a h)

theorem foldl_min_le_mem (l : List ℤ) (a x : ℤ) (hx : x ∈ l) :
    l.foldl min a ≤ x := by
  induction l generalizing a with
  | nil => cases hx
  | cons h t ih =>
    rcases List.mem_cons.mp hx with rfl | hx
    · exact le_trans (foldl_min_le_init t (min a x)) (min_le_right a x)
    · exact ih _ hx

theorem init_le_foldl_max (l : List ℤ) (a : ℤ) : a ≤ l.foldl max a := by
  induction l generalizing a with
  | nil => simp
  | cons h t ih => exact le_trans (le_max_left a h) (ih (max a h))

theorem mem_le_foldl_max (l : List ℤ) (a x : ℤ) (hx : x ∈ l) :
    x ≤ l.foldl max a := by
  induction l generalizing a with
  | nil => cases hx
  | cons h t ih =>
    rcases List.mem_cons.mp hx with rfl | hx
    · exact le_trans (le_max_right a x) (init_le_foldl_max t (max a x))
    · exact ih _ hx

theorem listMin_le (l : List ℤ) (x : ℤ) (hx : x ∈ l) : listMin l ≤ x := by
  cases l with
  | nil => cases hx
  | cons h t =>
    rcases List.mem_cons.mp hx with rfl | hx
    · exact foldl_min_le_init t x
    · exact foldl_min_le_mem t h x hx

theorem le_listMax (l : List ℤ) (x : ℤ) (hx : x ∈ l) : x ≤ listMax l := by
  cases l with
  | nil => cases hx
  | cons h t =>
    rcases List.mem_cons.mp hx with rfl | hx
    · exact init_le_foldl_max t x
    · exact mem_le_foldl_max t h x hx

theorem foldl_min_mem (l : List ℤ) (a : ℤ) :
    l.foldl min a = a ∨ l.foldl min a ∈ l := by
  induction l generalizing a with
  | nil => left; rfl
  | cons h t ih =>
    simp only [List.foldl_cons]
    rcases ih (min a h) with heq | hmem
    · rcases min_choice a h with hc | hc
      · left; rw [heq, hc]
      · right; rw [heq, hc]; exact List.mem_cons_self _ _
    · right; exact List.mem_cons_of_mem _ hmem

theorem foldl_max_mem (l : List ℤ) (a : ℤ) :
    l.foldl max a = a ∨ l.foldl max a ∈ l := by
  induction l generalizing a with
  | nil => left; rfl
  | cons h t ih =>
    simp only [List.foldl_cons]
    rcases ih (max a h) with heq | hmem
    · rcases max_choice a h with hc | hc
      · left; rw [heq, hc]
      · right; rw [heq, hc]; exact List.mem_cons_self _ _
    · right; exact List.mem_cons_of_mem _ hmem

theorem listMin_mem (l : List ℤ) (h : l ≠ []) : listMin l ∈ l := by
  cases l with
  | nil => exact absurd rfl h
  | cons a t =>
    rcases foldl_min_mem t a with heq | hmem
    · rw [listMin, heq]; exact List.mem_cons_self _ _
    · exact List.mem_cons_of_mem _ hmem

theorem listMax_mem (l : List ℤ) (h : l ≠ []) : listMax l ∈ l := by
  cases l with
  | nil => exact absurd rfl h
  | cons a t =>
    rcases foldl_max_mem t a with heq | hmem
    · rw [listMax, heq]; exact List.mem_cons_self _ _
    · exact List.mem_cons_of_mem _ hmem

/-- On a representable buffer, `invert` of a buffer sample is exactly
`min + max - v`: although `np.add(min, max)` may wrap, the final result
lies between `min` and `max` and is therefore exact. -/
theorem invert_exact (d : IntDtype) (buf : List ℤ) (hne : buf ≠ [])
    (hrep : ∀ v ∈ buf, d.rep v) (v : ℤ) (hv : v ∈ buf) :
    invert d buf v = listMin buf + listMax buf - v := by
  have hmin := hrep _ (listMin_mem buf hne)
  have hmax := hrep _ (listMax_mem buf hne)
  have hlo := listMin_le buf v hv
  have hhi := le_listMax buf v hv
  have htarget : d.rep (listMin buf + listMax buf - v) := by
    unfold IntDtype.rep at hmin hmax ⊢
    omega
  apply d.rep_inj _ _ (d.rep_wrap _) htarget
  simp only [invert, inverterOffset]
  rw [IntDtype.wrap_emod, Int.sub_emod, IntDtype.wrap_emod, ← Int.sub_emod]

/-- `invert` is an involution on representable values (this covers
WindowCenter values outside the buffer range as well). -/
theorem invert_involution (d : IntDtype) (buf : List ℤ) (v : ℤ)
    (hv : d.rep v) : invert d buf (invert d buf v) = v := by
  apply d.rep_inj _ _ (d.rep_wrap _) hv
  simp only [invert]
  rw [IntDtype.wrap_emod, Int.sub_emod (inverterOffset d buf),
    IntDtype.wrap_emod, ← Int.sub_emod, sub_sub_cancel]

/-- C5: for every non-RGB MONOCHROME1 group with a nonempty buffer of
dtype-representable samples, every sample `v` of the assembled buffer is
replaced by `offset - v` with `offset = min(buffer) + max(buffer)`, and
the result is exact (dtype-safe): it equals `min + max - v` as an
unbounded integer.  Applying the same inversion twice returns the original
buffer exactly, and the WindowCenter values receive the same affine
transform before being attached to the metadata. -/
theorem photometric_inversion_correct (d : IntDtype) (buf wc : List ℤ)
    (pi? : Option String) (spp : ℤ)
    (hpi : pi? = some "MONOCHROME1") (hspp : spp ≤ 1)
    (hne : buf ≠ []) (hrep : ∀ v ∈ buf, d.rep v) :
    applyPhotometric pi? spp d buf =
      buf.map (fun v => listMin buf + listMax buf - v) ∧
    (applyPhotometric pi? spp d buf).map (invert d buf) = buf ∧
    windowCenterMetadata pi? spp d buf wc = wc.map (invert d buf) := by
  have hinv : applyPhotometric pi? spp d buf = buf.map (invert d buf) := by
    unfold applyPhotometric
    rw [if_neg (by omega), if_pos hpi]
  have hexact : applyPhotometric pi? spp d buf =
      buf.map (fun v => listMin buf + listMax buf - v) := by
    rw [hinv]
    apply List.map_congr_left
    intro v hv
    exact invert_exact d buf hne hrep v hv
  refine ⟨hexact, ?_, ?_⟩
  · rw [hinv, List.map_map]
    rw [show buf.map (invert d buf ∘ invert d buf) =
        buf.map id from List.map_congr_left (fun v hv => by
          simpa using invert_involution d buf v (hrep v hv))]
    exact List.map_id buf
  · unfold windowCenterMetadata
    rw [if_neg (by omega), if_pos hpi]

/-- Witness for `photometric_inversion_correct`: an `int16` buffer
`[30000, 30001]` whose `min + max = 60001` overflows the dtype (the stored
offset wraps to `-5535`), yet the inverted buffer is exactly
`[30001, 30000]`. -/
theorem photometric_inversion_correct_witness :
    applyPhotometric (some "MONOCHROME1") 1 int16 [30000, 30001] =
      ([30000, 30001] : List ℤ).map
        (fun v => listMin [30000, 30001] + listMax [30000, 30001] - v) ∧
    (applyPhotometric (some "MONOCHROME1") 1 int16 [30000, 30001]).map
      (invert int16 [30000, 30001]) = [30000, 30001] ∧
    windowCenterMetadata (some "MONOCHROME1") 1 int16 [30000, 30001] [0] =
      ([0] : List ℤ).map (invert int16 [30000, 30001]) :=
  photometric_inversion_correct int16 [30000, 30001] [0]
    (some "MONOCHROME1") 1 rfl (by norm_num) (by simp) (by decide)

/-- C4: rescaling is active iff some file's slope is not close to 1 or
some file's intercept is not close to 0 (math.isclose tolerance); when
inactive the buffer keeps the first file's (integer) element type and the
slices are exactly the raw stored samples; when active the element type is
float32 and each slice is `slope * raw + intercept` computed with that
file's own slope and intercept. -/
theorem rescaling_correct (files : List PixelFile) (zOrder : ℤ) :
    (pixel_values_need_scaling files = true ↔
      ∃ f ∈ files,
        isclose f.slope 1 = false ∨ isclose f.intercept 0 = false) ∧
    (pixel_values_need_scaling files = false →
      bufferDtype files = files.head?.map (fun f => f.rawDtype) ∧
      assembleSlices files zOrder =
        (if 0 ≤ zOrder then files else files.reverse).map
          (fun f => f.samples)) ∧
    (pixel_values_need_scaling files = true →
      bufferDtype files = files.head?.map (fun _ => Dtype.float32) ∧
      assembleSlices files zOrder =
        (if 0 ≤ zOrder then files else files.reverse).map
          (fun f => f.samples.map (fun v => f.slope * v + f.intercept))) := by
  refine ⟨?_, ?_, ?_⟩
  · unfold pixel_values_need_scaling
    simp only [Bool.or_eq_true, List.any_eq_true, Bool.not_eq_true']
    constructor
    · rintro (⟨f, hf, hs⟩ | ⟨f, hf, hs⟩)
      · exact ⟨f, hf, Or.inl hs⟩
      · exact ⟨f, hf, Or.inr hs⟩
    · rintro ⟨f, hf, hs | hs⟩
      · exact Or.inl ⟨f, hf, hs⟩
      · exact Or.inr ⟨f, hf, hs⟩
  · intro h
    constructor
    · unfold bufferDtype
      rw [h]
      simp
    · unfold assembleSlices read_pixel_values
      rw [h]
      simp only [Bool.false_eq_true, if_false]
      split
      · rfl
      · rw [List.map_reverse]
  · intro h
    constructor
    · unfold bufferDtype
      rw [h]
      simp
    · unfold assembleSlices read_pixel_values
      rw [h]
      simp only [if_true]
      split
      · rfl
      · rw [List.map_reverse]

/-- Witness for `rescaling_correct` on a file with slope 2, intercept 3:
rescaling is active, the dtype is promoted and the slice is rescaled. -/
theorem rescaling_correct_witness :
    pixel_values_need_scaling exScaleFiles = true ∧
    bufferDtype exScaleFiles =
      exScaleFiles.head?.map (fun _ => Dtype.float32) ∧
    assembleSlices exScaleFiles 1 =
      (if (0 : ℤ) ≤ 1 then exScaleFiles else exScaleFiles.reverse).map
        (fun f => f.samples.map (fun v => f.slope * v + f.intercept)) := by
  have htrue : pixel_values_need_scaling exScaleFiles = true := by
    unfold pixel_values_need_scaling exScaleFiles isclose
    norm_num
  have h := (rescaling_correct exScaleFiles 1).2.2 htrue
  exact ⟨htrue, h.1, h.2⟩

theorem Vec3.sub_self_eq (a : Vec3) : a.sub a = Vec3.zero := by
  simp only [Vec3.sub, Vec3.zero, Vec3.mk.injEq]
  refine ⟨by ring, by ring, by ring⟩

theorem Vec3.sub_add_sub (h t o : Vec3) :
    (t.sub h).add (o.sub t) = o.sub h := by
  simp only [Vec3.add, Vec3.sub, Vec3.mk.injEq]
  refine ⟨by ring, by ring, by ring⟩

theorem Vec3.add_zero_eq (a : Vec3) : Vec3.zero.add a = a := by
  simp [Vec3.add, Vec3.zero]

theorem runSliceLoop_append (l : List Vec3) (o : Vec3) :
    runSliceLoop (l ++ [o]) = sliceStep (runSliceLoop l) o := by
  simp [runSliceLoop, List.foldl_append]

theorem dedupOrigins_append (l : List Vec3) (o : Vec3) :
    dedupOrigins (l ++ [o]) =
      if o ∈ dedupOrigins l then dedupOrigins l
      else dedupOrigins l ++ [o] := by
  simp [dedupOrigins, List.foldl_append]

/-- Loop invariant of `_determine_slice_order`: `origin_seen` is the
deduplicated origin list, `origin` is its last element, `n_diffs` counts
its length minus one, and the accumulated `origin_diff` telescopes to
`last - first`. -/
theorem runSliceLoop_spec (origins : List Vec3) :
    (runSliceLoop origins).originSeen = dedupOrigins origins ∧
    (runSliceLoop origins).origin = (dedupOrigins origins).getLast? ∧
    (runSliceLoop origins).nDiffs + 1 = max (dedupOrigins origins).length 1 ∧
    (runSliceLoop origins).originDiff =
      ((dedupOrigins origins).getLastD Vec3.zero).sub
        ((dedupOrigins origins).headD Vec3.zero) := by
  induction origins using List.reverseRecOn with
  | nil =>
    refine ⟨rfl, rfl, rfl, ?_⟩
    exact (Vec3.sub_self_eq _).symm
  | append_singleton l o ih =>
    obtain ⟨hseen, horigin, hdiffs, hdiff⟩ := ih
    rw [runSliceLoop_append, dedupOrigins_append]
    by_cases hmem : o ∈ dedupOrigins l
    · rw [if_pos hmem]
      have hstep : sliceStep (runSliceLoop l) o = runSliceLoop l := by
        unfold sliceStep
        rw [if_pos (hseen ▸ hmem)]
      rw [hstep]
      exact ⟨hseen, horigin, hdiffs, hdiff⟩
    · rw [if_neg hmem]
      have hstep : sliceStep (runSliceLoop l) o =
          { origin := some o
            originDiff :=
              match (runSliceLoop l).origin with
              | some p => (runSliceLoop l).originDiff.add (o.sub p)
              | none => (runSliceLoop l).originDiff
            originSeen := (runSliceLoop l).originSeen ++ [o]
            nDiffs :=
              match (runSliceLoop l).origin with
              | some _ => (runSliceLoop l).nDiffs + 1
              | none => (runSliceLoop l).nDiffs } := by
        unfold sliceStep
        rw [if_neg (hseen ▸ hmem)]
      rw [hstep]
      cases hd : dedupOrigins l with
      | nil =>
        have horigin2 : (runSliceLoop l).origin = none := by
          rw [horigin, hd]
          rfl
        have hdiffs2 : (runSliceLoop l).nDiffs = 0 := by
          rw [hd] at hdiffs
          simp at hdiffs
          omega
        refine ⟨?_, ?_, ?_, ?_⟩
        · simp [hseen, hd]
        · simp [horigin2, hd]
        · simp [horigin2, hdiffs2, hd]
        · rw [hd] at hdiff
          simp only [horigin2]
          simp only [hseen, hd, List.nil_append, Vec3.sub_self_eq]
          rw [hdiff]
          exact (Vec3.sub_self_eq _).trans (Vec3.sub_self_eq _).symm
      | cons a t =>
        have hlast : (a :: t).getLast? = some ((a :: t).getLastD Vec3.zero) := by
          rw [List.getLastD_eq_getLast?]
          cases h : (a :: t).getLast? with
          | none => simp at h
          | some v => rfl
        have horigin2 : (runSliceLoop l).origin =
            some ((a :: t).getLastD Vec3.zero) := by
          rw [horigin, hd, hlast]
        refine ⟨?_, ?_, ?_, ?_⟩
        · simp [hseen, hd]
        · rw [List.getLast?_concat]
        · simp only [horigin2]
          rw [hd] at hdiffs
          simp only [List.length_append, List.length_cons,
            List.length_singleton]
          simp at hdiffs ⊢
          omega
        · simp only [horigin2]
          rw [hdiff, hd]
          have hhead : ((a :: t) ++ [o]).headD Vec3.zero = a := rfl
          rw [List.getLastD_concat, hhead]
          exact Vec3.sub_add_sub _ _ _

theorem getLast?_eq_getLastD (l : List Vec3) (h : l ≠ []) :
    l.getLast? = some (l.getLastD Vec3.zero) := by
  cases l with
  | nil => exact absurd rfl h
  | cons a t =>
    rw [List.getLastD_eq_getLast?]
    cases hx : (a :: t).getLast? with
    | none => simp at hx
    | some v => rfl

/-- The successive differences of a list telescope to `last - first`. -/
theorem sumVec_successiveDiffs (l : List Vec3) (a : Vec3)
    (h : l.getLast? = some a) :
    sumVec (successiveDiffs l) = a.sub (l.headD Vec3.zero) := by
  induction l with
  | nil => simp at h
  | cons x t ih =>
    cases t with
    | nil =>
      simp only [List.getLast?_singleton, Option.some.injEq] at h
      subst h
      exact (Vec3.sub_self_eq _).symm
    | cons y t2 =>
      rw [List.getLast?_cons_cons] at h
      have := ih h
      show ((y.sub x).add (sumVec (successiveDiffs (y :: t2)))) =
        a.sub x
      rw [this]
      exact Vec3.sub_add_sub x y a

/-- The loop's accumulated average equals the average of the successive
differences of the deduplicated origin list. -/
theorem codeAvg_eq_avgSucc (origins : List Vec3)
    (h2 : 2 ≤ (dedupOrigins origins).length) :
    codeAvgDiff origins = avgSuccDiff (dedupOrigins origins) := by
  obtain ⟨hseen, horigin, hdiffs, hdiff⟩ := runSliceLoop_spec origins
  have hne : dedupOrigins origins ≠ [] := by
    intro h
    rw [h] at h2
    simp at h2
  have hmax : max (dedupOrigins origins).length 1 =
      (dedupOrigins origins).length := max_eq_left (by omega)
  have hn : (runSliceLoop origins).nDiffs =
      (dedupOrigins origins).length - 1 := by omega
  unfold codeAvgDiff avgSuccDiff
  rw [hdiff, hn,
    sumVec_successiveDiffs (dedupOrigins origins) _
      (getLast?_eq_getLastD _ hne)]

/-- C2: for every group with at least two distinct (deduplicated, header
order) origins, the slice-axis spacing is the Euclidean norm of the
average successive origin difference, the slice order sign is the sign of
the dot product of that average with the direction matrix applied to the
all-ones vector, and the emitted origin is the first deduplicated origin
when the sign is non-negative, else the last; with zero or one distinct
origin the sign is 0 and the spacing falls back to the
`SpacingBetweenSlices` tag or 1.0. -/
theorem determine_slice_order_correct (g : GeomGroup) :
    (2 ≤ (dedupOrigins g.origins).length →
      zSpacingOf g = vecNorm (avgSuccDiff (dedupOrigins g.origins)) ∧
      zOrderOf g =
        qsign ((avgSuccDiff (dedupOrigins g.origins)).dot
          (zDirectionOf g)) ∧
      volumeOriginOf g =
        (if 0 ≤ zOrderOf g then (dedupOrigins g.origins).headD Vec3.zero
         else (dedupOrigins g.origins).getLastD Vec3.zero)) ∧
    ((dedupOrigins g.origins).length ≤ 1 →
      zOrderOf g = 0 ∧
      zSpacingOf g = ((g.spacingBetweenSlices.getD 1 : ℚ) : ℝ)) := by
  obtain ⟨hseen, horigin, hdiffs, hdiff⟩ := runSliceLoop_spec g.origins
  constructor
  · intro h2
    have hne : dedupOrigins g.origins ≠ [] := by
      intro h
      rw [h] at h2
      simp at h2
    have hmax : max (dedupOrigins g.origins).length 1 =
        (dedupOrigins g.origins).length := max_eq_left (by omega)
    have hnz : (runSliceLoop g.origins).nDiffs ≠ 0 := by omega
    have havg := codeAvg_eq_avgSucc g.origins h2
    refine ⟨?_, ?_, ?_⟩
    · unfold zSpacingOf
      rw [if_neg hnz, havg]
    · unfold zOrderOf
      rw [if_neg hnz, havg]
    · unfold volumeOriginOf
      rw [horigin, getLast?_eq_getLastD _ hne, hseen]
  · intro h1
    have hmax : max (dedupOrigins g.origins).length 1 = 1 :=
      max_eq_right (by omega)
    have hz : (runSliceLoop g.origins).nDiffs = 0 := by omega
    constructor
    · unfold zOrderOf
      rw [if_pos hz]
    · unfold zSpacingOf
      rw [if_pos hz]

/-- Witness for `determine_slice_order_correct` on three collinear
origins (0,0,0), (0,0,1), (0,0,2) with the default orientation. -/
theorem determine_slice_order_correct_witness :
    zSpacingOf exGeom = vecNorm (avgSuccDiff (dedupOrigins exGeom.origins)) ∧
    zOrderOf exGeom =
      qsign ((avgSuccDiff (dedupOrigins exGeom.origins)).dot
        (zDirectionOf exGeom)) ∧
    volumeOriginOf exGeom =
      (if 0 ≤ zOrderOf exGeom then (dedupOrigins exGeom.origins).headD Vec3.zero
       else (dedupOrigins exGeom.origins).getLastD Vec3.zero) :=
  (determine_slice_order_correct exGeom).1 (by decide)

/-- C8 counterexample: an enhanced group with no pixel-spacing source
anywhere does NOT fail: `_find_dicom_tag` raises, the builder catches the
error and silently uses the default spacing `(1.0, 1.0)`. -/
theorem missing_spacing_counterexample :
    exEnhancedNoSpacing.isEnhanced = true ∧
    find_pixel_spacing_tag exEnhancedNoSpacing = none ∧
    inPlaneSpacing exEnhancedNoSpacing = (1, 1) := by
  refine ⟨rfl, rfl, rfl⟩

/-- C8 (amended): for every header (enhanced or not) in which no
pixel-spacing source exists at all, reconstruction does not fail: the
in-plane spacing silently defaults to `(1.0, 1.0)` (the lookup is a total
function with a catch-all `except DicomTagNotFoundError` branch). -/
theorem missing_spacing_defaults (s : SpacingSource)
    (h : find_pixel_spacing_tag s = none) : inPlaneSpacing s = (1, 1) := by
  unfold inPlaneSpacing
  rw [h]
  rfl

/-- Witness for `missing_spacing_defaults` at the enhanced no-spacing
header. -/
theorem missing_spacing_defaults_witness :
    inPlaneSpacing exEnhancedNoSpacing = (1, 1) :=
  missing_spacing_defaults exEnhancedNoSpacing rfl

theorem addMetaGo_ok (hdr : String → String) (fs : List String)
    (h : ∀ f ∈ fs, hdr f ≠ "" → validate_metadata_value f (hdr f) = true) :
    ∃ l, addMetaGo hdr fs = Except.ok l := by
  induction fs with
  | nil => exact ⟨[], rfl⟩
  | cons f rest ih =>
    obtain ⟨l, hl⟩ := ih (fun g hg => h g (List.mem_cons_of_mem _ hg))
    by_cases he : hdr f = ""
    · refine ⟨l, ?_⟩
      unfold addMetaGo
      rw [if_pos he]
      exact hl
    · have hv := h f (List.mem_cons_self _ _) he
      refine ⟨(f, hdr f) :: l, ?_⟩
      unfold addMetaGo
      rw [if_neg he, if_pos hv, hl]

theorem addMetaGo_error (hdr : String → String) (fs : List String)
    (h : ∃ f ∈ fs, hdr f ≠ "" ∧ validate_metadata_value f (hdr f) = false) :
    ∃ kw, addMetaGo hdr fs = Except.error kw := by
  induction fs with
  | nil =>
    obtain ⟨f, hf, _⟩ := h
    cases hf
  | cons g rest ih =>
    obtain ⟨f, hf, hne, hval⟩ := h
    by_cases he : hdr g = ""
    · have hfr : f ∈ rest := by
        rcases List.mem_cons.mp hf with rfl | hfr
        · exact absurd he hne
        · exact hfr
      obtain ⟨kw, hkw⟩ := ih ⟨f, hfr, hne, hval⟩
      refine ⟨kw, ?_⟩
      unfold addMetaGo
      rw [if_pos he]
      exact hkw
    · by_cases hv : validate_metadata_value g (hdr g) = true
      · have hfr : f ∈ rest := by
          rcases List.mem_cons.mp hf with rfl | hfr
          · rw [hv] at hval
            cases hval
          · exact hfr
        obtain ⟨kw, hkw⟩ := ih ⟨f, hfr, hne, hval⟩
        refine ⟨kw, ?_⟩
        unfold addMetaGo
        rw [if_neg he, if_pos hv, hkw]
      · refine ⟨g, ?_⟩
        unfold addMetaGo
        rw [if_neg he, if_neg hv]

/-- C7 counterexample: a group whose header carries the invalid auxiliary
value `PatientAge = "12Y"` does not succeed with the field dropped: the
ValidationError escapes `read()`, the member file is errored and no
record is produced. -/
theorem metadata_validation_counterexample :
    validate_metadata_value "PatientAge" "12Y" = false ∧
    dicom_group_emit [0] exBadHdr =
      Except.error
        [(0, dicomFormatError "validation failed for PatientAge")] := by
  refine ⟨rfl, rfl⟩

/-- C7 (amended): a validation failure of a whitelisted auxiliary
metadata field is FATAL for the group: when some whitelisted field has a
nonempty value failing its VR pattern or cast, the group yields no volume
record and every member file receives an error entry; only when all
nonempty whitelisted values validate does the group produce its record. -/
theorem metadata_validation_fatal (files : List FileId)
    (hdr : String → String) :
    ((∀ f ∈ optionalMetadataFields, hdr f ≠ "" →
        validate_metadata_value f (hdr f) = true) →
      ∃ meta, dicom_group_emit files hdr = Except.ok meta) ∧
    ((∃ f ∈ optionalMetadataFields, hdr f ≠ "" ∧
        validate_metadata_value f (hdr f) = false) →
      ∃ kw, dicom_group_emit files hdr =
        Except.error (files.map (fun p =>
          (p, dicomFormatError ("validation failed for " ++ kw))))) := by
  constructor
  · intro h
    obtain ⟨l, hl⟩ := addMetaGo_ok hdr optionalMetadataFields h
    refine ⟨l, ?_⟩
    unfold dicom_group_emit add_optional_metadata
    rw [hl]
  · intro h
    obtain ⟨kw, hkw⟩ := addMetaGo_error hdr optionalMetadataFields h
    refine ⟨kw, ?_⟩
    unfold dicom_group_emit add_optional_metadata
    rw [hkw]

/-- Witness for `metadata_validation_fatal` at the bad-PatientAge header
(error side) and the all-empty header (success side). -/
theorem metadata_validation_fatal_witness :
    (∃ meta, dicom_group_emit [0] (fun _ => "") = Except.ok meta) ∧
    (∃ kw, dicom_group_emit [0] exBadHdr =
      Except.error (([0] : List FileId).map (fun p =>
        (p, dicomFormatError ("validation failed for " ++ kw))))) :=
  ⟨(metadata_validation_fatal [0] (fun _ => "")).1
      (fun _ _ h => absurd rfl h),
   (metadata_validation_fatal [0] exBadHdr).2
      ⟨"PatientAge", by decide, by decide, by decide⟩⟩

/-- C9 (code bug): bytes 82 and 76 map to "R" and "L" and a structural
parse failure yields None (unknown) as claimed, but a laterality chunk
with any OTHER byte value does not yield unknown laterality: the code has
no else branch, so `self.laterality` stays unset, and constructing the
volume records then raises `AttributeError` — which the builder's except
clause does not catch, aborting the batch instead of recording a per-file
error. -/
theorem laterality_unknown_byte_aborts :
    lateralityAfter [LatEvent.parsed 82] = some (some "R") ∧
    lateralityAfter [LatEvent.parsed 76] = some (some "L") ∧
    lateralityAfter [LatEvent.failed] = some none ∧
    lateralityAfter [LatEvent.parsed 99] = none ∧
    process_e2e_volumes ["1_1_1"] [LatEvent.parsed 99] =
      OctScanOutcome.abort "AttributeError" ∧
    lateralityToEyeChoice (some "R") = EyeChoice.oculusDexter ∧
    lateralityToEyeChoice none = EyeChoice.unknownEye := by
  refine ⟨rfl, rfl, rfl, rfl, rfl, rfl, rfl⟩

/-- C10 counterexample: a successfully decoded OCT file with one volume
and one fundus image emits only the volume record; the fundus record the
decoder produced is discarded by `image_builder_oct` (which passes
`fundus_images=[]` to `_create_itk_images`). -/
theorem oct_fundus_discarded :
    image_builder_oct_emit "f" [exVol] [exFun] =
      [⟨"f", false, EyeChoice.oculusDexter⟩] ∧
    (image_builder_oct_emit "f" [exVol] [exFun]).filter
      (fun r => r.isFundus) = [] ∧
    create_itk_images "f" [exVol] [exFun] =
      [⟨"f", false, EyeChoice.oculusDexter⟩,
       ⟨"f_fundus", true, EyeChoice.oculusDexter⟩] := by
  refine ⟨rfl, rfl, rfl⟩

/-- C10 (amended): for every OCT container file that decodes
successfully, the pipeline emits exactly the OCT volume records; the
decoded fundus image records are deliberately not emitted. -/
theorem oct_emits_only_volumes (fileName : String)
    (volumes : List OctVolume) (fundus : List FundusImage) :
    image_builder_oct_emit fileName volumes fundus =
      volumes.map (fun v =>
        ⟨fileName, false, lateralityToEyeChoice v.laterality⟩) := by
  unfold image_builder_oct_emit create_itk_images
  simp

theorem validate_dataset_files (hs : List (FileId × GroupHeader))
    (t : Option ℤ) (n s : ℤ) (fs : List FileId)
    (h : validate_dicom_group hs = some (GroupOutcome.dataset t n s fs)) :
    fs = hs.map Prod.fst := by
  unfold validate_dicom_group at h
  cases hl : hs.getLast? with
  | none =>
    rw [hl] at h
    cases h
  | some last =>
    rw [hl] at h
    simp only at h
    split at h
    · cases h
      rfl
    · split at h
      · cases h
      · cases h
        rfl

theorem validate_errors_files (hs : List (FileId × GroupHeader))
    (es : List (FileId × String))
    (h : validate_dicom_group hs = some (GroupOutcome.errors es)) :
    es = hs.map (fun p =>
      (p.1, dicomFormatError "Number of slices per time point differs")) := by
  unfold validate_dicom_group at h
  cases hl : hs.getLast? with
  | none =>
    rw [hl] at h
    cases h
  | some last =>
    rw [hl] at h
    simp only at h
    split at h
    · cases h
    · split at h
      · cases h
        rfl
      · cases h

theorem builderStep_eq (inputs : List InputFile) (readOk : StudyKey → Bool)
    (acc : List (List FileId) × List (FileId × String)) (k : StudyKey) :
    builderStep inputs readOk acc k =
      (acc.1 ++ (groupRecordOf inputs readOk k).toList,
       acc.2 ++ groupErrorsOf inputs readOk k) := by
  unfold builderStep groupRecordOf groupErrorsOf
  cases validate_dicom_group (groupOf inputs k) with
  | none => simp
  | some o =>
    cases o with
    | dataset t n s fs =>
      by_cases h : readOk k
      · simp [h]
      · simp [h]
    | errors es => simp

theorem builder_fold_spec (inputs : List InputFile)
    (readOk : StudyKey → Bool) (ks : List StudyKey)
    (acc : List (List FileId) × List (FileId × String)) :
    (ks.foldl (builderStep inputs readOk) acc).1 =
      acc.1 ++ ks.filterMap (groupRecordOf inputs readOk) ∧
    (ks.foldl (builderStep inputs readOk) acc).2 =
      acc.2 ++ concatGroupErrors inputs readOk ks := by
  induction ks generalizing acc with
  | nil => simp [concatGroupErrors]
  | cons k t ih =>
    rw [List.foldl_cons, builderStep_eq]
    obtain ⟨ih1, ih2⟩ := ih (acc.1 ++ (groupRecordOf inputs readOk k).toList,
      acc.2 ++ groupErrorsOf inputs readOk k)
    constructor
    · rw [ih1]
      cases hr : groupRecordOf inputs readOk k with
      | none => simp [List.filterMap_cons, hr]
      | some fs => simp [List.filterMap_cons, hr]
    · rw [ih2, concatGroupErrors]
      simp

theorem mem_validFiles_iff (inputs : List InputFile) (p : FileId)
    (h : FullHeader) :
    (p, h) ∈ validFiles inputs ↔
      ∃ f ∈ inputs, f.path = p ∧ f.kind = FileKind.valid h := by
  unfold validFiles
  rw [List.mem_filterMap]
  constructor
  · rintro ⟨f, hf, hm⟩
    refine ⟨f, hf, ?_⟩
    cases hk : f.kind with
    | valid h0 =>
      rw [hk] at hm
      simp only [Option.some.injEq, Prod.mk.injEq] at hm
      obtain ⟨hp, hh⟩ := hm
      subst hh
      exact ⟨hp, rfl⟩
    | notAFile =>
      rw [hk] at hm
      cases hm
    | unreadable m =>
      rw [hk] at hm
      cases hm
  · rintro ⟨f, hf, hp, hk⟩
    refine ⟨f, hf, ?_⟩
    rw [hk, hp]

theorem mem_readErrors_iff (inputs : List InputFile) (p : FileId)
    (m : String) :
    (p, m) ∈ readErrors inputs ↔
      ∃ f ∈ inputs, f.path = p ∧
        ∃ m0, f.kind = FileKind.unreadable m0 ∧ m = dicomFormatError m0 := by
  unfold readErrors
  rw [List.mem_filterMap]
  constructor
  · rintro ⟨f, hf, hm⟩
    refine ⟨f, hf, ?_⟩
    cases hk : f.kind with
    | valid h0 =>
      rw [hk] at hm
      cases hm
    | notAFile =>
      rw [hk] at hm
      cases hm
    | unreadable m0 =>
      rw [hk] at hm
      simp only [Option.some.injEq, Prod.mk.injEq] at hm
      exact ⟨hm.1, m0, rfl, hm.2.symm⟩
  · rintro ⟨f, hf, hp, m0, hk, hm⟩
    refine ⟨f, hf, ?_⟩
    rw [hk, hp, hm]

theorem validFiles_paths_sublist (inputs : List InputFile) :
    ((validFiles inputs).map Prod.fst).Sublist
      (inputs.map InputFile.path) := by
  induction inputs with
  | nil => simp [validFiles]
  | cons f t ih =>
    unfold validFiles at ih ⊢
    rw [List.filterMap_cons]
    cases hk : f.kind with
    | valid h0 => exact List.Sublist.cons₂ _ ih
    | notAFile => exact List.Sublist.cons _ ih
    | unreadable m => exact List.Sublist.cons _ ih

theorem validFiles_paths_nodup (inputs : List InputFile)
    (hnodup : (inputs.map InputFile.path).Nodup) :
    ((validFiles inputs).map Prod.fst).Nodup :=
  (validFiles_paths_sublist inputs).nodup hnodup

theorem validFiles_path_inj (inputs : List InputFile)
    (hnodup : (inputs.map InputFile.path).Nodup) (p : FileId)
    (h h2 : FullHeader) (m1 : (p, h) ∈ validFiles inputs)
    (m2 : (p, h2) ∈ validFiles inputs) : h = h2 := by
  have hnd := validFiles_paths_nodup inputs hnodup
  have := List.inj_on_of_nodup_map hnd m1 m2 rfl
  exact congrArg Prod.snd this

theorem inputs_path_inj (inputs : List InputFile)
    (hnodup : (inputs.map InputFile.path).Nodup) (f g : InputFile)
    (hf : f ∈ inputs) (hg : g ∈ inputs) (hp : f.path = g.path) : f = g :=
  List.inj_on_of_nodup_map hnodup hf hg hp

theorem mem_dedupKeys_aux (ks : List StudyKey) (acc : List StudyKey)
    (k : StudyKey) :
    k ∈ ks.foldl (fun acc k => if k ∈ acc then acc else acc ++ [k]) acc ↔
      k ∈ acc ∨ k ∈ ks := by
  induction ks generalizing acc with
  | nil => simp
  | cons k0 t ih =>
    rw [List.foldl_cons, ih]
    by_cases h : k0 ∈ acc
    · rw [if_pos h]
      constructor
      · rintro (hx | hx)
        · exact Or.inl hx
        · exact Or.inr (List.mem_cons_of_mem _ hx)
      · rintro (hx | hx)
        · exact Or.inl hx
        · rcases List.mem_cons.mp hx with rfl | hx
          · exact Or.inl h
          · exact Or.inr hx
    · rw [if_neg h]
      simp only [List.mem_append, List.mem_singleton, List.mem_cons]
      tauto

theorem mem_studyKeys_iff (inputs : List InputFile) (k : StudyKey) :
    k ∈ studyKeys inputs ↔
      ∃ q ∈ validFiles inputs, headerKey q.2 = k := by
  unfold studyKeys dedupKeys
  rw [mem_dedupKeys_aux]
  simp [List.mem_map, eq_comm]

theorem mem_groupOf_paths (inputs : List InputFile) (k : StudyKey)
    (p : FileId) :
    p ∈ (groupOf inputs k).map Prod.fst ↔
      ∃ h, (p, h) ∈ validFiles inputs ∧ headerKey h = k := by
  unfold groupOf
  simp only [List.map_map, List.mem_map, List.mem_mergeSort,
    List.mem_filter, decide_eq_true_eq, Function.comp]
  constructor
  · rintro ⟨⟨q, hq⟩, ⟨hmem, hkey⟩, hp⟩
    have hp2 : q = p := hp
    subst hp2
    exact ⟨hq, hmem, hkey⟩
  · rintro ⟨h, hmem, hkey⟩
    exact ⟨(p, h), ⟨hmem, hkey⟩, rfl⟩

theorem validate_eq_none (hs : List (FileId × GroupHeader))
    (h : validate_dicom_group hs = none) : hs = [] := by
  rcases hs with _ | ⟨a, t⟩
  · rfl
  · exfalso
    unfold validate_dicom_group at h
    cases hl : (a :: t).getLast? with
    | none =>
      have hs2 := List.getLast?_isSome.mpr
        (show (a :: t) ≠ [] by simp)
      rw [hl] at hs2
      cases hs2
    | some last =>
      rw [hl] at h
      simp only at h
      split at h
      · cases h
      · split at h
        · cases h
        · cases h

theorem groupRecordOf_files (inputs : List InputFile)
    (readOk : StudyKey → Bool) (k : StudyKey) (fs : List FileId)
    (h : groupRecordOf inputs readOk k = some fs) :
    fs = (groupOf inputs k).map Prod.fst ∧ readOk k = true := by
  cases hv : validate_dicom_group (groupOf inputs k) with
  | none =>
    simp only [groupRecordOf, hv] at h
    cases h
  | some o =>
    cases o with
    | dataset t n s fs2 =>
      by_cases hr : readOk k = true
      · simp only [groupRecordOf, hv, hr, if_true] at h
        cases h
        exact ⟨validate_dataset_files _ _ _ _ _ hv, hr⟩
      · simp only [groupRecordOf, hv, hr] at h
        simp at h
    | errors es =>
      simp only [groupRecordOf, hv] at h
      cases h

theorem groupErrorsOf_paths (inputs : List InputFile)
    (readOk : StudyKey → Bool) (k : StudyKey) (p : FileId) (m : String)
    (h : (p, m) ∈ groupErrorsOf inputs readOk k) :
    p ∈ (groupOf inputs k).map Prod.fst := by
  cases hv : validate_dicom_group (groupOf inputs k) with
  | none =>
    simp only [groupErrorsOf, hv, List.not_mem_nil] at h
  | some o =>
    cases o with
    | dataset t n s fs =>
      by_cases hr : readOk k = true
      · simp only [groupErrorsOf, hv, hr, if_true, List.not_mem_nil] at h
      · simp only [groupErrorsOf, hv, hr, if_false] at h
        obtain ⟨q, hq, hqe⟩ := List.mem_map.mp h
        simp only [Prod.mk.injEq] at hqe
        rw [validate_dataset_files _ _ _ _ _ hv] at hq
        rw [← hqe.1]
        exact hq
    | errors es =>
      simp only [groupErrorsOf, hv] at h
      rw [validate_errors_files _ _ hv] at h
      obtain ⟨q, hq, hqe⟩ := List.mem_map.mp h
      simp only [Prod.mk.injEq] at hqe
      rw [← hqe.1]
      exact List.mem_map_of_mem _ hq

theorem group_member_accounted (inputs : List InputFile)
    (readOk : StudyKey → Bool) (k : StudyKey) (p : FileId)
    (hp : p ∈ (groupOf inputs k).map Prod.fst) :
    (∃ fs, groupRecordOf inputs readOk k = some fs ∧ p ∈ fs) ∨
      (∃ m, (p, m) ∈ groupErrorsOf inputs readOk k) := by
  cases hv : validate_dicom_group (groupOf inputs k) with
  | none =>
    rw [validate_eq_none _ hv] at hp
    cases hp
  | some o =>
    cases o with
    | dataset t n s fs =>
      by_cases hr : readOk k = true
      · left
        refine ⟨fs, ?_, ?_⟩
        · simp only [groupRecordOf, hv, hr, if_true]
        · rw [validate_dataset_files _ _ _ _ _ hv]
          exact hp
      · right
        refine ⟨dicomFormatError "read failed", ?_⟩
        simp only [groupErrorsOf, hv, hr, if_false]
        apply List.mem_map_of_mem
        rw [validate_dataset_files _ _ _ _ _ hv]
        exact hp
    | errors es =>
      right
      refine ⟨dicomFormatError "Number of slices per time point differs", ?_⟩
      simp only [groupErrorsOf, hv]
      rw [validate_errors_files _ _ hv]
      obtain ⟨q, hq, hqe⟩ := List.mem_map.mp hp
      rw [← hqe]
      exact List.mem_map_of_mem _ hq

theorem groupErrorsOf_empty_of_record (inputs : List InputFile)
    (readOk : StudyKey → Bool) (k : StudyKey) (fs : List FileId)
    (h : groupRecordOf inputs readOk k = some fs) :
    groupErrorsOf inputs readOk k = [] := by
  cases hv : validate_dicom_group (groupOf inputs k) with
  | none =>
    simp only [groupRecordOf, hv] at h
    cases h
  | some o =>
    cases o with
    | dataset t n s fs2 =>
      by_cases hr : readOk k = true
      · simp only [groupErrorsOf, hv, hr, if_true]
      · simp only [groupRecordOf, hv, hr] at h
        simp at h
    | errors es =>
      simp only [groupRecordOf, hv] at h
      cases h

theorem mem_concatGroupErrors (inputs : List InputFile)
    (readOk : StudyKey → Bool) (ks : List StudyKey) (e : FileId × String) :
    e ∈ concatGroupErrors inputs readOk ks ↔
      ∃ k ∈ ks, e ∈ groupErrorsOf inputs readOk k := by
  induction ks with
  | nil => simp [concatGroupErrors]
  | cons k t ih =>
    show e ∈ groupErrorsOf inputs readOk k ++
        concatGroupErrors inputs readOk t ↔ _
    rw [List.mem_append, ih]
    constructor
    · rintro (he | ⟨k2, hk2, he⟩)
      · exact ⟨k, List.mem_cons_self _ _, he⟩
      · exact ⟨k2, List.mem_cons_of_mem _ hk2, he⟩
    · rintro ⟨k2, hk2, he⟩
      rcases List.mem_cons.mp hk2 with rfl | hk2
      · exact Or.inl he
      · exact Or.inr ⟨k2, hk2, he⟩

theorem group_paths_unique (inputs : List InputFile)
    (hnodup : (inputs.map InputFile.path).Nodup) (k k2 : StudyKey)
    (p : FileId) (h1 : p ∈ (groupOf inputs k).map Prod.fst)
    (h2 : p ∈ (groupOf inputs k2).map Prod.fst) : k = k2 := by
  obtain ⟨ha, hma, hka⟩ := (mem_groupOf_paths _ _ _).mp h1
  obtain ⟨hb, hmb, hkb⟩ := (mem_groupOf_paths _ _ _).mp h2
  rw [← hka, ← hkb, validFiles_path_inj inputs hnodup p ha hb hma hmb]

theorem not_valid_and_unreadable (inputs : List InputFile)
    (hnodup : (inputs.map InputFile.path).Nodup) (p : FileId)
    (h : FullHeader) (m : String) (m1 : (p, h) ∈ validFiles inputs)
    (m2 : (p, m) ∈ readErrors inputs) : False := by
  obtain ⟨f1, hf1, hp1, hk1⟩ := (mem_validFiles_iff _ _ _).mp m1
  obtain ⟨f2, hf2, hp2, m0, hk2, _⟩ := (mem_readErrors_iff _ _ _).mp m2
  have heq := inputs_path_inj inputs hnodup f1 f2 hf1 hf2
    (hp1.trans hp2.symm)
  rw [heq, hk2] at hk1
  cases hk1

/-- C6 (amended): for every input list with distinct paths, the union of
the consumed files of the emitted records and the keys of the error map
equals the set of input paths that refer to EXISTING REGULAR FILES (paths
for which `file.is_file()` is false are silently skipped — they appear in
neither); the two sets are disjoint; and the batch raises the
unconsumed-files condition carrying exactly the error map iff the map is
nonempty. -/
theorem image_builder_dicom_accounting (inputs : List InputFile)
    (readOk : StudyKey → Bool)
    (hnodup : (inputs.map InputFile.path).Nodup) :
    (∀ p, (consumedIn (image_builder_dicom_run inputs readOk) p ∨
        erroredIn (image_builder_dicom_run inputs readOk) p) ↔
      ∃ f ∈ inputs, f.path = p ∧ f.kind ≠ FileKind.notAFile) ∧
    (∀ p, consumedIn (image_builder_dicom_run inputs readOk) p →
      ¬ erroredIn (image_builder_dicom_run inputs readOk) p) ∧
    raisesUnconsumed (image_builder_dicom_run inputs readOk) =
      !(image_builder_dicom_run inputs readOk).errors.isEmpty := by
  have hrec : (image_builder_dicom_run inputs readOk).records =
      (studyKeys inputs).filterMap (groupRecordOf inputs readOk) := by
    have := (builder_fold_spec inputs readOk (studyKeys inputs)
      ([], readErrors inputs)).1
    simpa [image_builder_dicom_run] using this
  have herr : (image_builder_dicom_run inputs readOk).errors =
      readErrors inputs ++
        concatGroupErrors inputs readOk (studyKeys inputs) := by
    have := (builder_fold_spec inputs readOk (studyKeys inputs)
      ([], readErrors inputs)).2
    simpa [image_builder_dicom_run] using this
  have hcons : ∀ p,
      consumedIn (image_builder_dicom_run inputs readOk) p ↔
        ∃ k ∈ studyKeys inputs, ∃ fs,
          groupRecordOf inputs readOk k = some fs ∧ p ∈ fs := by
    intro p
    unfold consumedIn
    rw [hrec]
    constructor
    · rintro ⟨r, hr, hpr⟩
      obtain ⟨k, hk, hkr⟩ := List.mem_filterMap.mp hr
      exact ⟨k, hk, r, hkr, hpr⟩
    · rintro ⟨k, hk, fs, hfs, hpf⟩
      exact ⟨fs, List.mem_filterMap.mpr ⟨k, hk, hfs⟩, hpf⟩
  have herrm : ∀ p,
      erroredIn (image_builder_dicom_run inputs readOk) p ↔
        (∃ m, (p, m) ∈ readErrors inputs) ∨
          ∃ k ∈ studyKeys inputs, ∃ m,
            (p, m) ∈ groupErrorsOf inputs readOk k := by
    intro p
    unfold erroredIn
    rw [herr]
    constructor
    · rintro ⟨m, hm⟩
      rcases List.mem_append.mp hm with hm | hm
      · exact Or.inl ⟨m, hm⟩
      · obtain ⟨k, hk, he⟩ := (mem_concatGroupErrors _ _ _ _).mp hm
        exact Or.inr ⟨k, hk, m, he⟩
    · rintro (⟨m, hm⟩ | ⟨k, hk, m, hm⟩)
      · exact ⟨m, List.mem_append.mpr (Or.inl hm)⟩
      · exact ⟨m, List.mem_append.mpr (Or.inr
          ((mem_concatGroupErrors _ _ _ _).mpr ⟨k, hk, hm⟩))⟩
  refine ⟨?_, ?_, rfl⟩
  · intro p
    constructor
    · rintro (hc | he)
      · obtain ⟨k, hk, fs, hfs, hpf⟩ := (hcons p).mp hc
        obtain ⟨hfiles, _⟩ := groupRecordOf_files _ _ _ _ hfs
        rw [hfiles] at hpf
        obtain ⟨h, hmem, _⟩ := (mem_groupOf_paths _ _ _).mp hpf
        obtain ⟨f, hf, hp, hkind⟩ := (mem_validFiles_iff _ _ _).mp hmem
        exact ⟨f, hf, hp, by rw [hkind]; intro h2; cases h2⟩
      · rcases (herrm p).mp he with ⟨m, hm⟩ | ⟨k, hk, m, hm⟩
        · obtain ⟨f, hf, hp, m0, hkind, _⟩ :=
            (mem_readErrors_iff _ _ _).mp hm
          exact ⟨f, hf, hp, by rw [hkind]; intro h2; cases h2⟩
        · have hpf := groupErrorsOf_paths _ _ _ _ _ hm
          obtain ⟨h, hmem, _⟩ := (mem_groupOf_paths _ _ _).mp hpf
          obtain ⟨f, hf, hp, hkind⟩ := (mem_validFiles_iff _ _ _).mp hmem
          exact ⟨f, hf, hp, by rw [hkind]; intro h2; cases h2⟩
    · rintro ⟨f, hf, hp, hkind⟩
      cases hk : f.kind with
      | notAFile => exact absurd hk hkind
      | unreadable m =>
        refine Or.inr ((herrm p).mpr (Or.inl
          ⟨dicomFormatError m, ?_⟩))
        exact (mem_readErrors_iff _ _ _).mpr ⟨f, hf, hp, m, hk, rfl⟩
      | valid h =>
        have hmem : (p, h) ∈ validFiles inputs :=
          (mem_validFiles_iff _ _ _).mpr ⟨f, hf, hp, hk⟩
        have hkmem : headerKey h ∈ studyKeys inputs :=
          (mem_studyKeys_iff _ _).mpr ⟨(p, h), hmem, rfl⟩
        have hpg : p ∈ (groupOf inputs (headerKey h)).map Prod.fst :=
          (mem_groupOf_paths _ _ _).mpr ⟨h, hmem, rfl⟩
        rcases group_member_accounted inputs readOk (headerKey h) p hpg
          with ⟨fs, hfs, hpf⟩ | ⟨m, hm⟩
        · exact Or.inl ((hcons p).mpr ⟨headerKey h, hkmem, fs, hfs, hpf⟩)
        · exact Or.inr ((herrm p).mpr (Or.inr ⟨headerKey h, hkmem, m, hm⟩))
  · intro p hc he
    obtain ⟨k, hk, fs, hfs, hpf⟩ := (hcons p).mp hc
    obtain ⟨hfiles, _⟩ := groupRecordOf_files _ _ _ _ hfs
    rw [hfiles] at hpf
    rcases (herrm p).mp he with ⟨m, hm⟩ | ⟨k2, hk2, m, hm⟩
    · obtain ⟨h, hmem, _⟩ := (mem_groupOf_paths _ _ _).mp hpf
      exact not_valid_and_unreadable inputs hnodup p h m hmem hm
    · have hpg2 := groupErrorsOf_paths _ _ _ _ _ hm
      have hkk := group_paths_unique inputs hnodup k k2 p hpf hpg2
      rw [← hkk] at hm
      rw [groupErrorsOf_empty_of_record _ _ _ _ hfs] at hm
      cases hm

/-- C6 counterexample: an input set containing one path that is not a
regular file produces no record and no error entry — the path is silently
skipped, so `consumed ∪ keys(error_map)` is empty and does not equal the
input set. -/
theorem dicom_nonfile_silently_dropped :
    (image_builder_dicom_run exInputsC6 (fun _ => true)).records = [] ∧
    (image_builder_dicom_run exInputsC6 (fun _ => true)).errors = [] ∧
    raisesUnconsumed (image_builder_dicom_run exInputsC6
      (fun _ => true)) = false ∧
    exInputsC6 ≠ [] := by
  refine ⟨rfl, rfl, rfl, by simp [exInputsC6]⟩

/-- Witness for `image_builder_dicom_accounting` on a mixed input (one
valid file, one unreadable file, one non-file path). -/
theorem image_builder_dicom_accounting_witness :
    ((consumedIn (image_builder_dicom_run exInputsMix (fun _ => true)) 0 ∨
      erroredIn (image_builder_dicom_run exInputsMix (fun _ => true)) 0) ↔
      ∃ f ∈ exInputsMix, f.path = 0 ∧ f.kind ≠ FileKind.notAFile) ∧
    (consumedIn (image_builder_dicom_run exInputsMix (fun _ => true)) 0 →
      ¬ erroredIn (image_builder_dicom_run exInputsMix (fun _ => true)) 0) :=
  ⟨(image_builder_dicom_accounting exInputsMix (fun _ => true)
      (by decide)).1 0,
   (image_builder_dicom_accounting exInputsMix (fun _ => true)
      (by decide)).2.1 0⟩
